import Mathlib

set_option linter.unusedVariables false

/-! # Verification of the GitBook-to-Starlight converter

Shallow embedding of the document-conversion pipeline
(`scripts/convert.js` and its sibling variant): the link-resolution
engine (`resolveUrl`), the directive rewriters (`convertHints`,
`convertTabs`, `convertStepper`, `convertCards`), the inline
normalizers (`removeHtmlEntities`, `convertEscapedBrackets`,
`convertVoidTags`) and the frontmatter transformer
(`processFrontmatter`).

Strings are `String` wrapping `List Char`; the Node.js `path` module
(POSIX flavour, forward slashes) is modelled segment-wise.  The model
is faithful for the inputs the converter actually sees: relative
forward-slash paths without trailing slashes, where the `from`
argument of `path.relative` does not escape the working directory. -/

namespace Conv

/-- JS truthiness-based `a || b` on strings: `b` when `a` is empty. -/
def jsOr (a b : String) : String := if a = "" then b else a

/-- Boolean list-prefix test. -/
def bPre : List Char → List Char → Bool
  | [], _ => true
  | _ :: _, [] => false
  | a :: p, b :: s => a == b && bPre p s

/-- JS `String.prototype.startsWith`. -/
def strStartsWith (s pat : String) : Bool := bPre pat.data s.data

/-- JS `String.prototype.endsWith`. -/
def strEndsWith (s pat : String) : Bool := bPre pat.data.reverse s.data.reverse

/-- ASCII lower-casing of a character list (JS `toLowerCase`). -/
def lowerL (s : List Char) : List Char := s.map Char.toLower

/-- ASCII lower-casing (JS `toLowerCase`). -/
def strToLower (s : String) : String := ⟨lowerL s.data⟩

/-- `rawUrl.replace(/\.md$/, '')`. -/
def stripMdSuffix (s : String) : String :=
  if strEndsWith s ".md" then ⟨s.data.take (s.data.length - 3)⟩ else s

/-- `url.replace(/^\.\//, '')`. -/
def stripDotSlash (s : String) : String :=
  if strStartsWith s "./" then ⟨s.data.drop 2⟩ else s

/-! ## Segment-wise model of the Node `path` module (POSIX) -/

/-- Split a character list at every occurrence of `c`
(JS `String.prototype.split`, which never returns an empty list). -/
def splitOnChar (c : Char) : List Char → List (List Char)
  | [] => [[]]
  | x :: xs =>
    if x = c then [] :: splitOnChar c xs
    else
      match splitOnChar c xs with
      | [] => [[x]]
      | h :: t => (x :: h) :: t

/-- Interleave the separator `c` between the pieces. -/
def joinSep (c : Char) : List (List Char) → List Char
  | [] => []
  | [x] => x
  | x :: y :: t => x ++ c :: joinSep c (y :: t)

/-- Path-segment normalization stack: drops empty and `.` segments and
resolves `..` against the accumulated (reversed) stack, keeping
leading `..` segments. -/
def normStack : List (List Char) → List (List Char) → List (List Char)
  | acc, [] => acc
  | acc, seg :: rest =>
    if seg = [] ∨ seg = ['.'] then normStack acc rest
    else if seg = ['.', '.'] then
      match acc with
      | [] => normStack [seg] rest
      | top :: acc' =>
        if top = ['.', '.'] then normStack (seg :: acc) rest
        else normStack acc' rest
    else normStack (seg :: acc) rest

/-- Normalized segment list of a segment list. -/
def normSegs (segs : List (List Char)) : List (List Char) :=
  (normStack [] segs).reverse

/-- Segments of a forward-slash path. -/
def splitSlashL (s : List Char) : List (List Char) := splitOnChar '/' s

/-- Render segments back to a path; the empty list renders as `.`
(as Node `path.normalize`/`path.join` do). -/
def renderSegsL (segs : List (List Char)) : List Char :=
  match segs with
  | [] => ['.']
  | _ => joinSep '/' segs

/-- Node `path.normalize` on relative forward-slash paths. -/
def normalizePathL (s : List Char) : List Char :=
  renderSegsL (normSegs (splitSlashL s))

/-- Node `path.join` on two relative forward-slash paths. -/
def joinPathL (a b : List Char) : List Char :=
  renderSegsL (normSegs (splitSlashL a ++ splitSlashL b))

/-- Node `path.dirname` on relative forward-slash paths. -/
def dirnameL (s : List Char) : List Char :=
  match splitSlashL s with
  | [] => ['.']
  | [_] => ['.']
  | parts => joinSep '/' parts.dropLast

/-- Node `path.basename` (no extension argument). -/
def basenameL (s : List Char) : List Char :=
  ((splitSlashL s).getLast?).getD []

/-- Node `path.basename(p, ext)`: strips `ext` when the basename ends
with it and is not equal to it. -/
def basenameExtL (s ext : List Char) : List Char :=
  let b := basenameL s
  if b ≠ ext ∧ bPre ext.reverse b.reverse = true then
    b.take (b.length - ext.length)
  else b

/-- Drop the common leading segments of two segment lists. -/
def dropCommon : List (List Char) → List (List Char) → (List (List Char) × List (List Char))
  | a :: f, b :: t => if a = b then dropCommon f t else (a :: f, b :: t)
  | f, t => (f, t)

/-- Node `path.relative` on relative forward-slash paths whose
normal forms do not escape the working directory. -/
def relativeL (fromP toP : List Char) : List Char :=
  let p := dropCommon (normSegs (splitSlashL fromP)) (normSegs (splitSlashL toP))
  joinSep '/' (p.1.map (fun _ => ['.', '.']) ++ p.2)

def dirname (s : String) : String := ⟨dirnameL s.data⟩

def basename (s : String) : String := ⟨basenameL s.data⟩

def basenameExt (s ext : String) : String := ⟨basenameExtL s.data ext.data⟩

def joinPath (a b : String) : String := ⟨joinPathL a.data b.data⟩

def normalizePath (s : String) : String := ⟨normalizePathL s.data⟩

def relativeStr (a b : String) : String := ⟨relativeL a.data b.data⟩

/-! ## The link-resolution engine (`resolveLinks` / `resolveUrl`) -/

/-- The static anchor remap table (`tabAnchorMap` in `resolveLinks`). -/
def tabAnchorMap : List (String × String) :=
  [("#green-dot", "#project-tips"),
   ("#order-of-workspaces", "#workspace-tips"),
   ("#workspace-id", "#workspace-tips"),
   ("#project-movement", "#project-tips"),
   ("#project-selection", "#project-tips")]

/-- Association lookup in the anchor remap table. -/
def lookupAnchor (k : String) : Option String :=
  (tabAnchorMap.find? (fun p => p.1 == k)).map (fun p => p.2)

/-- `anchor ? (tabAnchorMap[anchor.toLowerCase()] || anchor) : ''`. -/
def mapAnchor (anchor : Option String) : String :=
  match anchor with
  | none => ""
  | some a =>
    if a = "" then ""
    else
      match lookupAnchor (strToLower a) with
      | some v => jsOr v a
      | none => a

/-- `anchor || ''` as used on the external-link branch. -/
def anchorStr : Option String → String
  | none => ""
  | some a => a

/-- `resolveUrl` from `resolveLinks`: resolves one link target against
the current document's source-relative path. -/
def resolveUrl (currentFilePath rawUrl : String) (anchor : Option String) : String :=
  let isIndex := lowerL (basenameL currentFilePath.data) = "readme.md".data
  let currentDir := dirname currentFilePath
  let currentFileName := strToLower (basenameExt currentFilePath ".md")
  if rawUrl = "" then
    jsOr (mapAnchor anchor) "#"
  else if strStartsWith rawUrl "http://" = true ∨ strStartsWith rawUrl "https://" = true then
    rawUrl ++ anchorStr anchor
  else if strStartsWith rawUrl "/" = true then
    stripMdSuffix rawUrl ++ mapAnchor anchor
  else
    let mappedAnchor := mapAnchor anchor
    let targetPath := stripDotSlash (stripMdSuffix rawUrl)
    let resolvedTarget := normalizePath (joinPath currentDir targetPath)
    let targetFileName := strToLower (basename resolvedTarget)
    let targetDir := dirname resolvedTarget
    if (targetFileName = currentFileName ∨ (isIndex ∧ targetFileName = "readme")) ∧ targetDir = currentDir then
      jsOr mappedAnchor "#"
    else
      let currentUrlPath :=
        if isIndex then currentDir
        else joinPath currentDir (basenameExt currentFilePath ".md")
      let targetBasename := strToLower (basename targetPath)
      let targetUrlPath :=
        if targetBasename = "readme" then dirname resolvedTarget else resolvedTarget
      let baseForRelative := if isIndex then currentUrlPath else dirname currentUrlPath
      let relativePath := relativeStr baseForRelative targetUrlPath
      let finalPath := if relativePath = "" then "." else relativePath
      finalPath ++ mappedAnchor

/-- The self-link condition tested by `resolveUrl` on the relative
branch (resolved target basename matches the current document). -/
def selfLinkCond (currentFilePath rawUrl : String) : Prop :=
  let isIndex := lowerL (basenameL currentFilePath.data) = "readme.md".data
  let currentDir := dirname currentFilePath
  let currentFileName := strToLower (basenameExt currentFilePath ".md")
  let targetPath := stripDotSlash (stripMdSuffix rawUrl)
  let resolvedTarget := normalizePath (joinPath currentDir targetPath)
  let targetFileName := strToLower (basename resolvedTarget)
  let targetDir := dirname resolvedTarget
  (targetFileName = currentFileName ∨ (isIndex ∧ targetFileName = "readme")) ∧ targetDir = currentDir

instance (fp raw : String) : Decidable (selfLinkCond fp raw) := by
  unfold selfLinkCond; infer_instance

/-! ## Spec-side definitions for the link resolver

These follow the specification's words, to be compared with
`resolveUrl` (which is translated from the source). -/

/-- The derived URL path of a document: its containing directory when
it is an index document, `directory/stem` otherwise (spec section 4.3). -/
def urlPathOf (filePath : String) : String :=
  if lowerL (basenameL filePath.data) = "readme.md".data then dirname filePath
  else joinPath (dirname filePath) (basenameExt filePath ".md")

/-- Modelled from the spec: the target's URL path is its containing
directory when its basename is the index name `readme`
(case-insensitive) and the resolved path (`directory/stem`) otherwise. -/
def specTargetUrlPath (resolvedTarget : String) : String :=
  if strToLower (basename resolvedTarget) = "readme" then dirname resolvedTarget
  else resolvedTarget

/-- Modelled from the spec: resolution of a relative, non-self link
from a non-index document — the relative path from the parent
directory of the document's URL path (the base point for a non-index
document) to the target's URL path, with an empty result rendered
as `.`. -/
def specRelativeResolve (currentFilePath rawUrl : String) : String :=
  let basePoint := dirname (urlPathOf currentFilePath)
  let resolved :=
    normalizePath (joinPath (dirname currentFilePath)
      (stripDotSlash (stripMdSuffix rawUrl)))
  let r := relativeStr basePoint (specTargetUrlPath resolved)
  if r = "" then "." else r

/-! ## Supporting lemmas for the path model -/

theorem strAppend_empty (s : String) : s ++ "" = s := by
  apply congrArg String.mk
  show s.data ++ [] = s.data
  exact List.append_nil _

theorem splitOnChar_ne_nil (c : Char) (s : List Char) : splitOnChar c s ≠ [] := by
  induction s with
  | nil => simp [splitOnChar]
  | cons x xs ih =>
    by_cases hx : x = c
    · simp [splitOnChar, hx]
    · simp only [splitOnChar, hx, if_false]
      cases h : splitOnChar c xs <;> simp

theorem splitOnChar_no_sep (c : Char) (s : List Char) :
    ∀ piece ∈ splitOnChar c s, c ∉ piece := by
  induction s with
  | nil => intro piece hp; simp [splitOnChar] at hp; simp [hp]
  | cons x xs ih =>
    intro piece hp
    by_cases hx : x = c
    · rw [show splitOnChar c (x :: xs) = [] :: splitOnChar c xs by
        simp only [splitOnChar, if_pos hx]] at hp
      rcases List.mem_cons.mp hp with h | h
      · subst h; simp
      · exact ih piece h
    · rcases hsp : splitOnChar c xs with _ | ⟨hd, tl⟩
      · exact absurd hsp (splitOnChar_ne_nil c xs)
      · rw [show splitOnChar c (x :: xs) = (x :: hd) :: tl by
          simp only [splitOnChar, if_neg hx, hsp]] at hp
        rcases List.mem_cons.mp hp with h | h
        · subst h
          intro hc
          rcases List.mem_cons.mp hc with hc | hc
          · exact hx hc.symm
          · exact ih hd (by rw [hsp]; exact List.mem_cons_self _ _) hc
        · exact ih piece (by rw [hsp]; exact List.mem_cons_of_mem _ h)

theorem splitOnChar_of_no_sep (c : Char) (s : List Char) (h : c ∉ s) :
    splitOnChar c s = [s] := by
  induction s with
  | nil => rfl
  | cons x xs ih =>
    have hx : ¬ x = c := fun he => h (by simp [he])
    have hxs : c ∉ xs := fun hm => h (List.mem_cons_of_mem _ hm)
    simp only [splitOnChar, hx, if_false, ih hxs]

theorem splitOnChar_append_sep (c : Char) (u rest : List Char) (h : c ∉ u) :
    splitOnChar c (u ++ c :: rest) = u :: splitOnChar c rest := by
  induction u with
  | nil => simp [splitOnChar]
  | cons x xs ih =>
    have hx : ¬ x = c := fun he => h (by simp [he])
    have hxs : c ∉ xs := fun hm => h (List.mem_cons_of_mem _ hm)
    rw [List.cons_append]
    simp only [splitOnChar, if_neg hx]
    rw [ih hxs]

theorem splitOnChar_joinSep (c : Char) (segs : List (List Char))
    (hne : segs ≠ []) (hfree : ∀ seg ∈ segs, c ∉ seg) :
    splitOnChar c (joinSep c segs) = segs := by
  induction segs with
  | nil => exact absurd rfl hne
  | cons x xs ih =>
    cases xs with
    | nil =>
      simp only [joinSep]
      exact splitOnChar_of_no_sep c x (hfree x (List.mem_cons_self _ _))
    | cons y t =>
      simp only [joinSep]
      rw [splitOnChar_append_sep c x _ (hfree x (List.mem_cons_self _ _))]
      rw [ih (by simp) (fun seg hs => hfree seg (List.mem_cons_of_mem _ hs))]

theorem normStack_mem (segs : List (List Char)) :
    ∀ (acc : List (List Char)) (y : List Char), y ∈ normStack acc segs →
      y ∈ acc ∨ y ∈ segs ∨ y = ['.', '.'] := by
  induction segs with
  | nil => intro acc y hy; simp [normStack] at hy; exact Or.inl hy
  | cons seg rest ih =>
    intro acc y hy
    by_cases h1 : seg = [] ∨ seg = ['.']
    · simp only [normStack, if_pos h1] at hy
      rcases ih acc y hy with h | h | h
      · exact Or.inl h
      · exact Or.inr (Or.inl (List.mem_cons_of_mem _ h))
      · exact Or.inr (Or.inr h)
    · by_cases h2 : seg = ['.', '.']
      · simp only [normStack, if_neg h1, if_pos h2] at hy
        cases acc with
        | nil =>
          rcases ih [seg] y hy with h | h | h
          · simp at h; subst h; exact Or.inr (Or.inr h2)
          · exact Or.inr (Or.inl (List.mem_cons_of_mem _ h))
          · exact Or.inr (Or.inr h)
        | cons top acc' =>
          by_cases h3 : top = ['.', '.']
          · simp only [if_pos h3] at hy
            rcases ih (seg :: top :: acc') y hy with h | h | h
            · rcases List.mem_cons.mp h with h | h
              · subst h; exact Or.inr (Or.inr h2)
              · exact Or.inl h
            · exact Or.inr (Or.inl (List.mem_cons_of_mem _ h))
            · exact Or.inr (Or.inr h)
          · simp only [if_neg h3] at hy
            rcases ih acc' y hy with h | h | h
            · exact Or.inl (List.mem_cons_of_mem _ h)
            · exact Or.inr (Or.inl (List.mem_cons_of_mem _ h))
            · exact Or.inr (Or.inr h)
      · simp only [normStack, if_neg h1, if_neg h2] at hy
        rcases ih (seg :: acc) y hy with h | h | h
        · rcases List.mem_cons.mp h with h | h
          · subst h; exact Or.inr (Or.inl (List.mem_cons_self _ _))
          · exact Or.inl h
        · exact Or.inr (Or.inl (List.mem_cons_of_mem _ h))
        · exact Or.inr (Or.inr h)

theorem normStack_append_last (x : List Char)
    (hx1 : x ≠ []) (hx2 : x ≠ ['.']) (hx3 : x ≠ ['.', '.']) :
    ∀ (l acc : List (List Char)),
      normStack acc (l ++ [x]) = x :: normStack acc l := by
  intro l
  induction l with
  | nil =>
    intro acc
    simp only [List.nil_append, normStack]
    rw [if_neg (by simp [hx1, hx2]), if_neg hx3]
  | cons seg rest ih =>
    intro acc
    simp only [List.cons_append, normStack]
    by_cases h1 : seg = [] ∨ seg = ['.']
    · simp only [if_pos h1]; exact ih acc
    · by_cases h2 : seg = ['.', '.']
      · simp only [if_neg h1, if_pos h2]
        cases acc with
        | nil => exact ih [seg]
        | cons top acc' =>
          by_cases h3 : top = ['.', '.']
          · simp only [if_pos h3]; exact ih (seg :: top :: acc')
          · simp only [if_neg h3]; exact ih acc'
      · simp only [if_neg h1, if_neg h2]; exact ih (seg :: acc)

theorem normSegs_append_last (x : List Char) (l : List (List Char))
    (hx1 : x ≠ []) (hx2 : x ≠ ['.']) (hx3 : x ≠ ['.', '.']) :
    normSegs (l ++ [x]) = normSegs l ++ [x] := by
  unfold normSegs
  rw [normStack_append_last x hx1 hx2 hx3 l []]
  simp

theorem getLastD_decomp {α : Type} (l : List α) (d : α) (h : l ≠ []) :
    l = l.dropLast ++ [(l.getLast?).getD d] := by
  rw [List.getLast?_eq_getLast l h]
  simp [List.dropLast_append_getLast h]

theorem basenameL_joinSep_last (t : List (List Char)) (x : List Char)
    (hfree : ∀ seg ∈ t ++ [x], '/' ∉ seg) :
    basenameL (joinSep '/' (t ++ [x])) = x := by
  unfold basenameL splitSlashL
  rw [splitOnChar_joinSep '/' (t ++ [x]) (by simp) hfree]
  simp

/-- The basename of the resolved target path equals the basename of
the written (relative) target path, provided the latter is a real
segment (not empty, `.` or `..`). -/
theorem basename_resolved (cd tp : String)
    (hx1 : basenameL tp.data ≠ []) (hx2 : basenameL tp.data ≠ ['.'])
    (hx3 : basenameL tp.data ≠ ['.', '.']) :
    basename (normalizePath (joinPath cd tp)) = basename tp := by
  apply congrArg String.mk
  show basenameL (normalizePathL (joinPathL cd.data tp.data)) = basenameL tp.data
  set x := basenameL tp.data with hxdef
  have hsne : splitSlashL tp.data ≠ [] := splitOnChar_ne_nil '/' tp.data
  have hdecomp : splitSlashL tp.data = (splitSlashL tp.data).dropLast ++ [x] := by
    rw [hxdef]; unfold basenameL
    exact getLastD_decomp (splitSlashL tp.data) [] hsne
  have hxfree : '/' ∉ x := by
    have := splitOnChar_no_sep '/' tp.data x
    apply this
    rw [show splitOnChar '/' tp.data = splitSlashL tp.data from rfl, hdecomp]
    simp
  -- segments of the join, with x split off the end
  have hjoin : joinPathL cd.data tp.data =
      renderSegsL (normSegs ((splitSlashL cd.data ++ (splitSlashL tp.data).dropLast) ++ [x])) := by
    unfold joinPathL
    rw [hdecomp]
    simp [List.append_assoc]
  rw [hjoin]
  rw [normSegs_append_last x _ hx1 hx2 hx3]
  set T := normSegs (splitSlashL cd.data ++ (splitSlashL tp.data).dropLast) with hT
  have hTfree : ∀ seg ∈ T ++ [x], '/' ∉ seg := by
    intro seg hseg
    rcases List.mem_append.mp hseg with h | h
    · rw [hT] at h
      unfold normSegs at h
      have := normStack_mem _ [] seg (List.mem_reverse.mp h)
      rcases this with h' | h' | h'
      · simp at h'
      · rcases List.mem_append.mp h' with h'' | h''
        · exact splitOnChar_no_sep '/' cd.data seg h''
        · have : seg ∈ splitSlashL tp.data := List.dropLast_subset _ h''
          exact splitOnChar_no_sep '/' tp.data seg this
      · subst h'; simp
    · simp at h; subst h; exact hxfree
  have hrender : renderSegsL (T ++ [x]) = joinSep '/' (T ++ [x]) := by
    unfold renderSegsL
    cases T <;> rfl
  rw [hrender]
  unfold normalizePathL
  rw [show splitSlashL (joinSep '/' (T ++ [x])) = T ++ [x] from
    splitOnChar_joinSep '/' (T ++ [x]) (by simp) hTfree]
  rw [normSegs_append_last x T hx1 hx2 hx3]
  have hTfree2 : ∀ seg ∈ normSegs T ++ [x], '/' ∉ seg := by
    intro seg hseg
    rcases List.mem_append.mp hseg with h | h
    · unfold normSegs at h
      have := normStack_mem _ [] seg (List.mem_reverse.mp h)
      rcases this with h' | h' | h'
      · simp at h'
      · exact hTfree seg (List.mem_append.mpr (Or.inl h'))
      · subst h'; simp
    · simp at h; subst h; exact hxfree
  have hrender2 : renderSegsL (normSegs T ++ [x]) = joinSep '/' (normSegs T ++ [x]) := by
    unfold renderSegsL
    cases normSegs T <;> rfl
  rw [hrender2]
  exact basenameL_joinSep_last (normSegs T) x hTfree2

/-! ## Claims about the link-resolution engine -/

/-- C1.  For a non-index document and a relative, non-self,
non-external link target whose written basename is a real path
segment, `resolveUrl` computes exactly the spec formula: the relative
path from the parent directory of the document's URL path to the
target's URL path (containing directory for an index target,
`directory/stem` otherwise); in particular from `a/b.md` a link to
`d.md` resolves to `d` and a link to `c/readme.md` resolves to `c`. -/
theorem resolveUrl_nonIndex_relative_matches_spec :
    (∀ fp raw : String,
      lowerL (basenameL fp.data) ≠ "readme.md".data →
      raw ≠ "" →
      strStartsWith raw "http://" = false →
      strStartsWith raw "https://" = false →
      strStartsWith raw "/" = false →
      ¬ selfLinkCond fp raw →
      basenameL (stripDotSlash (stripMdSuffix raw)).data ≠ [] →
      basenameL (stripDotSlash (stripMdSuffix raw)).data ≠ ['.'] →
      basenameL (stripDotSlash (stripMdSuffix raw)).data ≠ ['.', '.'] →
      resolveUrl fp raw none = specRelativeResolve fp raw)
    ∧ resolveUrl "a/b.md" "d.md" none = "d"
    ∧ resolveUrl "a/b.md" "c/readme.md" none = "c" := by
  refine ⟨?_, by decide, by decide⟩
  intro fp raw hIdx hne hh1 hh2 habs hself hb1 hb2 hb3
  have hself' :
      ¬ ((strToLower (basename (normalizePath (joinPath (dirname fp)
            (stripDotSlash (stripMdSuffix raw))))) =
          strToLower (basenameExt fp ".md") ∨
         (lowerL (basenameL fp.data) = "readme.md".data ∧
          strToLower (basename (normalizePath (joinPath (dirname fp)
            (stripDotSlash (stripMdSuffix raw))))) = "readme")) ∧
        dirname (normalizePath (joinPath (dirname fp)
          (stripDotSlash (stripMdSuffix raw)))) = dirname fp) := hself
  simp only [resolveUrl]
  rw [if_neg hne]
  rw [if_neg (by simp [hh1, hh2])]
  rw [if_neg (by simp [habs])]
  rw [if_neg hself']
  simp only [specRelativeResolve, urlPathOf, specTargetUrlPath]
  rw [if_neg hIdx, if_neg hIdx]
  rw [basename_resolved (dirname fp) (stripDotSlash (stripMdSuffix raw)) hb1 hb2 hb3]
  simp only [mapAnchor]
  rw [strAppend_empty]

/-- Witness for C1: the sibling-file example `a/b.md` → `d.md`
discharges every hypothesis. -/
theorem resolveUrl_nonIndex_relative_matches_spec_witness :
    resolveUrl "a/b.md" "d.md" none = specRelativeResolve "a/b.md" "d.md" :=
  resolveUrl_nonIndex_relative_matches_spec.1 "a/b.md" "d.md"
    (by decide) (by decide) (by decide) (by decide) (by decide)
    (by decide) (by decide) (by decide) (by decide)

/-- C2.  A relative link whose resolved basename (case-insensitively)
matches the current document (or the index basename when the current
document is an index) and whose resolved directory equals the current
directory is a self-link: with no anchor, `resolveUrl` returns `#`. -/
theorem resolveUrl_selfLink (fp raw : String)
    (hne : raw ≠ "")
    (hh1 : strStartsWith raw "http://" = false)
    (hh2 : strStartsWith raw "https://" = false)
    (habs : strStartsWith raw "/" = false)
    (hself : selfLinkCond fp raw) :
    resolveUrl fp raw none = "#" := by
  have hself' :
      ((strToLower (basename (normalizePath (joinPath (dirname fp)
            (stripDotSlash (stripMdSuffix raw))))) =
          strToLower (basenameExt fp ".md") ∨
         (lowerL (basenameL fp.data) = "readme.md".data ∧
          strToLower (basename (normalizePath (joinPath (dirname fp)
            (stripDotSlash (stripMdSuffix raw))))) = "readme")) ∧
        dirname (normalizePath (joinPath (dirname fp)
          (stripDotSlash (stripMdSuffix raw)))) = dirname fp) := hself
  simp only [resolveUrl]
  rw [if_neg hne]
  rw [if_neg (by simp [hh1, hh2])]
  rw [if_neg (by simp [habs])]
  rw [if_pos hself']
  rfl

/-- Witness for C2: both self-link examples, `a/b.md` → `./b.md` and
`a/readme.md` → `./readme.md`, yield `#`. -/
theorem resolveUrl_selfLink_witness :
    resolveUrl "a/b.md" "./b.md" none = "#" ∧
    resolveUrl "a/readme.md" "./readme.md" none = "#" :=
  ⟨resolveUrl_selfLink "a/b.md" "./b.md"
      (by decide) (by decide) (by decide) (by decide) (by decide),
   resolveUrl_selfLink "a/readme.md" "./readme.md"
      (by decide) (by decide) (by decide) (by decide) (by decide)⟩

/-- C3.  External links (targets starting with `http://` or
`https://`) pass through unchanged with their raw anchor appended;
the anchor is never passed through the remap table. -/
theorem resolveUrl_external (fp u : String) (a : Option String)
    (h : strStartsWith u "http://" = true ∨ strStartsWith u "https://" = true) :
    resolveUrl fp u a = u ++ anchorStr a := by
  have hne : u ≠ "" := by
    intro he; subst he; revert h; decide
  simp only [resolveUrl]
  rw [if_neg hne, if_pos h]

/-- Witness for C3: an external link carrying the anchor
`#green-dot`, which is a key of the remap table, keeps its raw
anchor (the remapped form would have been `#project-tips`). -/
theorem resolveUrl_external_witness :
    resolveUrl "a/b.md" "https://x.com" (some "#green-dot") =
      "https://x.com#green-dot" :=
  (resolveUrl_external "a/b.md" "https://x.com" (some "#green-dot")
    (Or.inr (by decide))).trans (by decide)

/-- C4.  Anchor-only links: no anchor yields `#`; an anchor absent
from the remap table (keyed by its lower-cased form) passes through
unchanged; an anchor whose lower-cased form is a key maps to the
table's value. -/
theorem resolveUrl_anchorOnly :
    (∀ fp : String, resolveUrl fp "" none = "#") ∧
    (∀ fp a : String, a ≠ "" → lookupAnchor (strToLower a) = none →
      resolveUrl fp "" (some a) = a) ∧
    (∀ fp a v : String, a ≠ "" → v ≠ "" → lookupAnchor (strToLower a) = some v →
      resolveUrl fp "" (some a) = v) := by
  refine ⟨fun fp => rfl, fun fp a ha hl => ?_, fun fp a v ha hv hl => ?_⟩
  · simp [resolveUrl, mapAnchor, hl, jsOr, ha]
  · simp [resolveUrl, mapAnchor, hl, jsOr, ha, hv]

/-! ## Global literal replacement (JS `String.replace(/pat/g, rep)`)

The three inline normalizers of C8 are chains of global replacements
of literal patterns (some case-insensitive).  `raGo` is the
left-to-right, non-overlapping scan JS performs; the fuel argument is
always the input length, which suffices since every step consumes at
least one character. -/

/-- Character comparison, optionally case-insensitive (regex `/i`). -/
def chEq (ci : Bool) (a b : Char) : Bool :=
  if ci then a.toLower == b.toLower else a == b

/-- Consume the literal pattern `p` at the head of `s`, returning the
remainder. -/
def matchesPat (ci : Bool) : List Char → List Char → Option (List Char)
  | [], s => some s
  | _ :: _, [] => none
  | a :: p, b :: s => if chEq ci a b then matchesPat ci p s else none

/-- One global-replacement scan with fuel. -/
def raGo (ci : Bool) (p r : List Char) : Nat → List Char → List Char
  | 0, s => s
  | _ + 1, [] => []
  | fuel + 1, c :: cs =>
    match matchesPat ci p (c :: cs) with
    | some rest => r ++ raGo ci p r fuel rest
    | none => c :: raGo ci p r fuel cs

/-- Global replacement of the literal `p` by `r` in `u`. -/
def raL (ci : Bool) (p r u : List Char) : List Char := raGo ci p r u.length u

/-- JS `s.replace(/p/g, r)` for a literal pattern `p`. -/
def replaceAllG (ci : Bool) (p r s : String) : String :=
  ⟨raL ci p.data r.data s.data⟩

/-- `removeHtmlEntities`: the five chained entity replacements
(`&#x3C;` and `&#x3E;` are case-insensitive). -/
def removeHtmlEntities (content : String) : String :=
  replaceAllG false "&#62;" ">"
    (replaceAllG false "&#60;" "<"
      (replaceAllG true "&#x3E;" ">"
        (replaceAllG true "&#x3C;" "<"
          (replaceAllG false "&#x20;" " " content))))

/-- `convertEscapedBrackets`: `\[` → `[` then `\]` → `]`. -/
def convertEscapedBrackets (content : String) : String :=
  replaceAllG false "\\]" "]" (replaceAllG false "\\[" "[" content)

/-- Does the pattern `p` match at the head of `s`? -/
def pMatch (ci : Bool) (p s : List Char) : Bool := (matchesPat ci p s).isSome

/-- Does the pattern `p` match anywhere in `s`? -/
def occursB (ci : Bool) (p : List Char) : List Char → Bool
  | [] => pMatch ci p []
  | c :: cs => pMatch ci p (c :: cs) || occursB ci p cs

theorem chEq_symm (ci : Bool) (a b : Char) : chEq ci a b = chEq ci b a := by
  unfold chEq
  cases ci <;> simp [Bool.beq_comm]

theorem matchesPat_some_drop (ci : Bool) :
    ∀ (p s r : List Char), matchesPat ci p s = some r → r = s.drop p.length := by
  intro p
  induction p with
  | nil => intro s r h; simp [matchesPat] at h; simp [h]
  | cons a p ih =>
    intro s r h
    cases s with
    | nil => simp [matchesPat] at h
    | cons b s =>
      by_cases hc : chEq ci a b = true
      · rw [matchesPat, if_pos hc] at h
        simpa using ih s r h
      · rw [matchesPat, if_neg hc] at h
        exact absurd h (by simp)

theorem matchesPat_rest_length (ci : Bool) (p s r : List Char)
    (hp : p ≠ []) (h : matchesPat ci p s = some r) :
    r.length + 1 ≤ s.length := by
  have hd := matchesPat_some_drop ci p s r h
  subst hd
  cases p with
  | nil => exact absurd rfl hp
  | cons a p =>
    cases s with
    | nil => simp [matchesPat] at h
    | cons b s =>
      simp only [List.length_drop, List.length_cons]
      omega

theorem pMatch_transfer (cq ci : Bool) (p r : List Char) (hr : r ≠ []) :
    ∀ (fuel : Nat) (s q : List Char),
      (∀ c ∈ r, ∀ c' ∈ q, chEq cq c c' = false) →
      pMatch cq q (raGo ci p r fuel s) = true → pMatch cq q s = true := by
  intro fuel
  induction fuel with
  | zero => intro s q hd h; simpa [raGo] using h
  | succ fuel ih =>
    intro s q hd h
    cases s with
    | nil => simpa [raGo] using h
    | cons c cs =>
      cases q with
      | nil => rfl
      | cons q0 q' =>
        rw [show raGo ci p r (fuel + 1) (c :: cs) =
            (match matchesPat ci p (c :: cs) with
             | some rest => r ++ raGo ci p r fuel rest
             | none => c :: raGo ci p r fuel cs) from rfl] at h
        cases hm : matchesPat ci p (c :: cs) with
        | some rest =>
          rw [hm] at h
          cases r with
          | nil => exact absurd rfl hr
          | cons r0 r' =>
            exfalso
            have hq0 : chEq cq q0 r0 = false := by
              rw [chEq_symm]
              exact hd r0 (List.mem_cons_self _ _) q0 (List.mem_cons_self _ _)
            simp [pMatch, matchesPat, hq0] at h
        | none =>
          rw [hm] at h
          by_cases hc : chEq cq q0 c = true
          · have h' : pMatch cq q' (raGo ci p r fuel cs) = true := by
              simpa [pMatch, matchesPat, hc] using h
            have := ih cs q'
              (fun x hx y hy => hd x hx y (List.mem_cons_of_mem _ hy)) h'
            simpa [pMatch, matchesPat, hc] using this
          · simp [pMatch, matchesPat, hc] at h

theorem occursB_append_disjoint (cq : Bool) (q : List Char) (hq : q ≠ []) :
    ∀ (xs ys : List Char),
      (∀ c ∈ xs, ∀ c' ∈ q, chEq cq c c' = false) →
      occursB cq q (xs ++ ys) = occursB cq q ys := by
  intro xs
  induction xs with
  | nil => intro ys _; rfl
  | cons x xs ih =>
    intro ys hd
    rw [List.cons_append, occursB]
    have hx : pMatch cq q (x :: (xs ++ ys)) = false := by
      cases q with
      | nil => exact absurd rfl hq
      | cons q0 q' =>
        have : chEq cq q0 x = false := by
          rw [chEq_symm]
          exact hd x (List.mem_cons_self _ _) q0 (List.mem_cons_self _ _)
        simp [pMatch, matchesPat, this]
    rw [hx, Bool.false_or]
    exact ih ys (fun c hc => hd c (List.mem_cons_of_mem _ hc))

theorem occursB_drop (cq : Bool) (q : List Char) :
    ∀ (k : Nat) (s : List Char),
      occursB cq q s = false → occursB cq q (s.drop k) = false := by
  intro k
  induction k with
  | zero => intro s h; simpa using h
  | succ k ih =>
    intro s h
    cases s with
    | nil => simpa using h
    | cons c cs =>
      rw [occursB] at h
      rcases Bool.or_eq_false_iff.mp h with ⟨_, h2⟩
      rw [List.drop_succ_cons]
      exact ih cs h2

theorem raGo_noSelfOccur (ci : Bool) (p r : List Char)
    (hp : p ≠ []) (hr : r ≠ [])
    (hd : ∀ c ∈ r, ∀ c' ∈ p, chEq ci c c' = false) :
    ∀ (fuel : Nat) (s : List Char), s.length ≤ fuel →
      occursB ci p (raGo ci p r fuel s) = false := by
  intro fuel
  induction fuel with
  | zero =>
    intro s hs
    have : s = [] := List.length_eq_zero.mp (Nat.le_zero.mp hs)
    subst this
    cases p with
    | nil => exact absurd rfl hp
    | cons a p' => simp [raGo, occursB, pMatch, matchesPat]
  | succ fuel ih =>
    intro s hs
    cases s with
    | nil =>
      cases p with
      | nil => exact absurd rfl hp
      | cons a p' => simp [raGo, occursB, pMatch, matchesPat]
    | cons c cs =>
      rw [show raGo ci p r (fuel + 1) (c :: cs) =
          (match matchesPat ci p (c :: cs) with
           | some rest => r ++ raGo ci p r fuel rest
           | none => c :: raGo ci p r fuel cs) from rfl]
      cases hm : matchesPat ci p (c :: cs) with
      | some rest =>
        rw [occursB_append_disjoint ci p hp r _ hd]
        apply ih rest
        have := matchesPat_rest_length ci p (c :: cs) rest hp hm
        simp only [List.length_cons] at this hs
        omega
      | none =>
        rw [occursB]
        apply Bool.or_eq_false_iff.mpr
        constructor
        · cases p with
          | nil => exact absurd rfl hp
          | cons p0 p' =>
            by_cases hc : chEq ci p0 c = true
            · by_cases h2 : pMatch ci p' (raGo ci (p0 :: p') r fuel cs) = true
              · exfalso
                have := pMatch_transfer ci ci (p0 :: p') r hr fuel cs p'
                  (fun x hx y hy => hd x hx y (List.mem_cons_of_mem _ hy)) h2
                rw [pMatch] at this
                rw [matchesPat, if_pos hc] at hm
                rw [hm] at this
                simp at this
              · rw [pMatch, matchesPat, if_pos hc]
                rw [pMatch] at h2
                simpa using h2
            · simp [pMatch, matchesPat, hc]
        · apply ih cs
          simp only [List.length_cons] at hs
          omega

theorem raGo_preserveNoOccur (cq ci : Bool) (q p r : List Char)
    (hq : q ≠ []) (hp : p ≠ []) (hr : r ≠ [])
    (hd : ∀ c ∈ r, ∀ c' ∈ q, chEq cq c c' = false) :
    ∀ (fuel : Nat) (s : List Char), s.length ≤ fuel →
      occursB cq q s = false →
      occursB cq q (raGo ci p r fuel s) = false := by
  intro fuel
  induction fuel with
  | zero =>
    intro s hs ho
    have : s = [] := List.length_eq_zero.mp (Nat.le_zero.mp hs)
    subst this
    simpa [raGo] using ho
  | succ fuel ih =>
    intro s hs ho
    cases s with
    | nil => simpa [raGo] using ho
    | cons c cs =>
      rw [occursB] at ho
      rcases Bool.or_eq_false_iff.mp ho with ⟨ho1, ho2⟩
      rw [show raGo ci p r (fuel + 1) (c :: cs) =
          (match matchesPat ci p (c :: cs) with
           | some rest => r ++ raGo ci p r fuel rest
           | none => c :: raGo ci p r fuel cs) from rfl]
      cases hm : matchesPat ci p (c :: cs) with
      | some rest =>
        rw [occursB_append_disjoint cq q hq r _ hd]
        apply ih rest
        · have := matchesPat_rest_length ci p (c :: cs) rest hp hm
          simp only [List.length_cons] at this hs
          omega
        · have hdrop := matchesPat_some_drop ci p (c :: cs) rest hm
          rw [hdrop]
          exact occursB_drop cq q p.length (c :: cs) ho
      | none =>
        rw [occursB]
        apply Bool.or_eq_false_iff.mpr
        constructor
        · cases q with
          | nil => exact absurd rfl hq
          | cons q0 q' =>
            by_cases hc : chEq cq q0 c = true
            · by_cases h2 : pMatch cq q' (raGo ci p r fuel cs) = true
              · exfalso
                have := pMatch_transfer cq ci p r hr fuel cs q'
                  (fun x hx y hy => hd x hx y (List.mem_cons_of_mem _ hy)) h2
                rw [pMatch] at this
                rw [pMatch, matchesPat, if_pos hc] at ho1
                rw [this] at ho1
                simp at ho1
              · rw [pMatch, matchesPat, if_pos hc]
                rw [pMatch] at h2
                simpa using h2
            · simp [pMatch, matchesPat, hc]
        · exact ih cs (by simp only [List.length_cons] at hs; omega) ho2

theorem raGo_noOccur_fix (ci : Bool) (p r : List Char) :
    ∀ (fuel : Nat) (s : List Char),
      occursB ci p s = false → raGo ci p r fuel s = s := by
  intro fuel
  induction fuel with
  | zero => intro s _; rfl
  | succ fuel ih =>
    intro s ho
    cases s with
    | nil => rfl
    | cons c cs =>
      rw [occursB] at ho
      rcases Bool.or_eq_false_iff.mp ho with ⟨ho1, ho2⟩
      have hm : matchesPat ci p (c :: cs) = none := by
        rw [pMatch] at ho1
        cases hh : matchesPat ci p (c :: cs) with
        | none => rfl
        | some rest => rw [hh] at ho1; simp at ho1
      rw [show raGo ci p r (fuel + 1) (c :: cs) =
          (match matchesPat ci p (c :: cs) with
           | some rest => r ++ raGo ci p r fuel rest
           | none => c :: raGo ci p r fuel cs) from rfl]
      rw [hm]
      rw [ih cs ho2]

/-! ## `convertVoidTags` -/

/-- JS regex `\s` (ASCII part). -/
def isWSChar (c : Char) : Bool :=
  c == ' ' || c == '\t' || c == '\n' || c == '\r' || c == '\x0b' || c == '\x0c'

/-- Generic left-to-right global-replacement scan driven by a matcher
that returns `(replacement, rest-after-match)`. -/
def scanRepl (m : List Char → Option (List Char × List Char)) : Nat → List Char → List Char
  | 0, s => s
  | _ + 1, [] => []
  | fuel + 1, c :: cs =>
    match m (c :: cs) with
    | some (rep, rest) => rep ++ scanRepl m fuel rest
    | none => c :: scanRepl m fuel cs

/-- Matcher for `/<br\s*>/gi` with replacement `<br />`. -/
def brM (cs : List Char) : Option (List Char × List Char) :=
  match matchesPat true "<br".data cs with
  | none => none
  | some rest =>
    match rest.dropWhile (fun c => isWSChar c) with
    | '>' :: r => some ("<br />".data, r)
    | _ => none

/-- Matcher for `/<hr\s*>/gi` with replacement `<hr />`. -/
def hrM (cs : List Char) : Option (List Char × List Char) :=
  match matchesPat true "<hr".data cs with
  | none => none
  | some rest =>
    match rest.dropWhile (fun c => isWSChar c) with
    | '>' :: r => some ("<hr />".data, r)
    | _ => none

/-- Replacement template `<img $1 />`. -/
def mkImgRepl (body : List Char) : List Char :=
  "<img ".data ++ body ++ " />".data

/-- Matcher for `/<img\s+([^>]*[^/])>/gi`, which the greedy engine
resolves deterministically: after `<img` and a maximal whitespace run,
`[^>]*` runs to the first `>`; the single `[^/]` is either that `>`
itself (when another `>` follows), the character before it (when it
is not `/`), or — when the body before the `>` is empty — the last
whitespace character given back by backtracking `\s+`. -/
def imgM (cs : List Char) : Option (List Char × List Char) :=
  match matchesPat true "<img".data cs with
  | none => none
  | some rest =>
    let w := rest.takeWhile (fun c => isWSChar c)
    if w.length = 0 then none
    else
      let body0 := rest.drop w.length
      let pre := body0.takeWhile (fun c => !(c == '>'))
      match body0.dropWhile (fun c => !(c == '>')) with
      | '>' :: '>' :: r => some (mkImgRepl (pre ++ ['>']), r)
      | '>' :: r =>
        if pre = [] then
          if 2 ≤ w.length then some (mkImgRepl [(w.getLast?).getD ' '], r)
          else none
        else
          if (pre.getLast?).getD ' ' = '/' then none
          else some (mkImgRepl pre, r)
      | _ => none

/-- `convertVoidTags`: self-close `<br>`, `<hr>` and `<img …>`. -/
def convertVoidTags (content : String) : String :=
  let s1 := scanRepl brM content.data.length content.data
  let s2 := scanRepl hrM s1.length s1
  let s3 := scanRepl imgM s2.length s2
  ⟨s3⟩

/-! ## Idempotence of `removeHtmlEntities` -/

/-- The entity-decoding chain at the character-list level. -/
def rheChainL (u : List Char) : List Char :=
  raL false "&#62;".data ">".data
    (raL false "&#60;".data "<".data
      (raL true "&#x3E;".data ">".data
        (raL true "&#x3C;".data "<".data
          (raL false "&#x20;".data " ".data u))))

theorem rheChainL_idem (u : List Char) :
    rheChainL (rheChainL u) = rheChainL u := by
  unfold rheChainL
  set u1 := raL false "&#x20;".data " ".data u with hu1
  set u2 := raL true "&#x3C;".data "<".data u1 with hu2
  set u3 := raL true "&#x3E;".data ">".data u2 with hu3
  set u4 := raL false "&#60;".data "<".data u3 with hu4
  set u5 := raL false "&#62;".data ">".data u4 with hu5
  have o1a : occursB false "&#x20;".data u1 = false := by
    rw [hu1]; unfold raL
    exact raGo_noSelfOccur false _ _ (by decide) (by decide) (by decide)
      u.length u (le_refl _)
  have o1b : occursB false "&#x20;".data u2 = false := by
    rw [hu2]; unfold raL
    exact raGo_preserveNoOccur false true _ _ _ (by decide) (by decide)
      (by decide) (by decide) u1.length u1 (le_refl _) o1a
  have o1c : occursB false "&#x20;".data u3 = false := by
    rw [hu3]; unfold raL
    exact raGo_preserveNoOccur false true _ _ _ (by decide) (by decide)
      (by decide) (by decide) u2.length u2 (le_refl _) o1b
  have o1d : occursB false "&#x20;".data u4 = false := by
    rw [hu4]; unfold raL
    exact raGo_preserveNoOccur false false _ _ _ (by decide) (by decide)
      (by decide) (by decide) u3.length u3 (le_refl _) o1c
  have o1e : occursB false "&#x20;".data u5 = false := by
    rw [hu5]; unfold raL
    exact raGo_preserveNoOccur false false _ _ _ (by decide) (by decide)
      (by decide) (by decide) u4.length u4 (le_refl _) o1d
  have o2a : occursB true "&#x3C;".data u2 = false := by
    rw [hu2]; unfold raL
    exact raGo_noSelfOccur true _ _ (by decide) (by decide) (by decide)
      u1.length u1 (le_refl _)
  have o2b : occursB true "&#x3C;".data u3 = false := by
    rw [hu3]; unfold raL
    exact raGo_preserveNoOccur true true _ _ _ (by decide) (by decide)
      (by decide) (by decide) u2.length u2 (le_refl _) o2a
  have o2c : occursB true "&#x3C;".data u4 = false := by
    rw [hu4]; unfold raL
    exact raGo_preserveNoOccur true false _ _ _ (by decide) (by decide)
      (by decide) (by decide) u3.length u3 (le_refl _) o2b
  have o2d : occursB true "&#x3C;".data u5 = false := by
    rw [hu5]; unfold raL
    exact raGo_preserveNoOccur true false _ _ _ (by decide) (by decide)
      (by decide) (by decide) u4.length u4 (le_refl _) o2c
  have o3a : occursB true "&#x3E;".data u3 = false := by
    rw [hu3]; unfold raL
    exact raGo_noSelfOccur true _ _ (by decide) (by decide) (by decide)
      u2.length u2 (le_refl _)
  have o3b : occursB true "&#x3E;".data u4 = false := by
    rw [hu4]; unfold raL
    exact raGo_preserveNoOccur true false _ _ _ (by decide) (by decide)
      (by decide) (by decide) u3.length u3 (le_refl _) o3a
  have o3c : occursB true "&#x3E;".data u5 = false := by
    rw [hu5]; unfold raL
    exact raGo_preserveNoOccur true false _ _ _ (by decide) (by decide)
      (by decide) (by decide) u4.length u4 (le_refl _) o3b
  have o4a : occursB false "&#60;".data u4 = false := by
    rw [hu4]; unfold raL
    exact raGo_noSelfOccur false _ _ (by decide) (by decide) (by decide)
      u3.length u3 (le_refl _)
  have o4b : occursB false "&#60;".data u5 = false := by
    rw [hu5]; unfold raL
    exact raGo_preserveNoOccur false false _ _ _ (by decide) (by decide)
      (by decide) (by decide) u4.length u4 (le_refl _) o4a
  have o5a : occursB false "&#62;".data u5 = false := by
    rw [hu5]; unfold raL
    exact raGo_noSelfOccur false _ _ (by decide) (by decide) (by decide)
      u4.length u4 (le_refl _)
  rw [show raL false "&#x20;".data " ".data u5 = u5 from by
    unfold raL; exact raGo_noOccur_fix false _ _ u5.length u5 o1e]
  rw [show raL true "&#x3C;".data "<".data u5 = u5 from by
    unfold raL; exact raGo_noOccur_fix true _ _ u5.length u5 o2d]
  rw [show raL true "&#x3E;".data ">".data u5 = u5 from by
    unfold raL; exact raGo_noOccur_fix true _ _ u5.length u5 o3c]
  rw [show raL false "&#60;".data "<".data u5 = u5 from by
    unfold raL; exact raGo_noOccur_fix false _ _ u5.length u5 o4b]
  rw [show raL false "&#62;".data ">".data u5 = u5 from by
    unfold raL; exact raGo_noOccur_fix false _ _ u5.length u5 o5a]

theorem replaceAllG_data (ci : Bool) (p r t : String) :
    replaceAllG ci p r t = String.mk (raL ci p.data r.data t.data) := rfl

theorem removeHtmlEntities_eq (t : String) :
    removeHtmlEntities t = String.mk (rheChainL t.data) := by
  unfold removeHtmlEntities rheChainL
  rw [replaceAllG_data, replaceAllG_data, replaceAllG_data, replaceAllG_data,
    replaceAllG_data]

/-- C8 (amended).  HTML entity decoding is idempotent: applying
`removeHtmlEntities` twice yields the same result as applying it
once, for every input string. -/
theorem removeHtmlEntities_idem (s : String) :
    removeHtmlEntities (removeHtmlEntities s) = removeHtmlEntities s := by
  rw [removeHtmlEntities_eq s, removeHtmlEntities_eq]
  exact congrArg String.mk (rheChainL_idem s.data)

set_option maxHeartbeats 1600000 in
/-- Counterexample for C8: void-tag self-closing and escaped-bracket
conversion are not idempotent.  `\\[` becomes `\[` and then `[` on a
second pass; `<img a>>` becomes `<img a> />` and then `<img a /> />`. -/
theorem inlineNormalizers_not_all_idempotent :
    convertEscapedBrackets "\\\\[" = "\\[" ∧
    convertEscapedBrackets (convertEscapedBrackets "\\\\[") ≠
      convertEscapedBrackets "\\\\[" ∧
    convertVoidTags "<img a>>" = "<img a> />" ∧
    convertVoidTags (convertVoidTags "<img a>>") ≠
      convertVoidTags "<img a>>" :=
  ⟨by decide, by decide, by decide, by decide⟩

/-! ## `convertHints` -/

/-- JS regex `\w`. -/
def isWordChar (c : Char) : Bool :=
  ('a' ≤ c && c ≤ 'z') || ('A' ≤ c && c ≤ 'Z') || ('0' ≤ c && c ≤ '9') || c == '_'

/-- Consume a case-sensitive literal. -/
def eatLit (p cs : List Char) : Option (List Char) := matchesPat false p cs

/-- Skip `\s*`. -/
def eatWS (cs : List Char) : List Char := cs.dropWhile (fun c => isWSChar c)

/-- Trim (JS `String.prototype.trim`). -/
def trimWS (s : List Char) : List Char :=
  ((s.dropWhile (fun c => isWSChar c)).reverse.dropWhile (fun c => isWSChar c)).reverse

/-- Scan for the first position where `m` matches; returns the text
before the match and the remainder after it. -/
def findPat (m : List Char → Option (List Char)) : Nat → List Char → Option (List Char × List Char)
  | 0, _ => none
  | _ + 1, [] =>
    match m [] with
    | some r => some ([], r)
    | none => none
  | fuel + 1, c :: cs =>
    match m (c :: cs) with
    | some r => some ([], r)
    | none => (findPat m fuel cs).map (fun p => (c :: p.1, p.2))

/-- The GitBook hint-style → Aside-type table (`styleMap`). -/
def hintStyleMap : List (String × String) :=
  [("success", "tip"), ("info", "note"), ("warning", "caution"), ("danger", "danger")]

/-- `styleMap[style] || 'note'`. -/
def hintAsideType (style : String) : String :=
  (((hintStyleMap.find? (fun p => p.1 == style)).map (fun p => p.2))).getD "note"

/-- Matcher for the opening `{% hint style="(\w+)" %}`; returns the
captured style and the remainder. -/
def hintOpenAt (cs : List Char) : Option (List Char × List Char) :=
  (eatLit "\x7b%".data cs).bind fun r1 =>
  (eatLit "hint".data (eatWS r1)).bind fun r2 =>
  let w := r2.takeWhile (fun c => isWSChar c)
  if w.length = 0 then none
  else
    (eatLit "style=\"".data (r2.drop w.length)).bind fun r3 =>
    let style := r3.takeWhile (fun c => isWordChar c)
    if style.length = 0 then none
    else
      (eatLit "\"".data (r3.drop style.length)).bind fun r4 =>
      (eatLit "%\x7d".data (eatWS r4)).map fun r5 => (style, r5)

/-- Matcher for `{% endhint %}`. -/
def endHintAt (cs : List Char) : Option (List Char) :=
  (eatLit "\x7b%".data cs).bind fun r1 =>
  (eatLit "endhint".data (eatWS r1)).bind fun r2 =>
  eatLit "%\x7d".data (eatWS r2)

/-- Backtracking tail of the title regex `####\s*(.+)$`: `\s*` is
greedy, giving characters back one at a time until `(.+)` (one line's
worth of non-newline characters) is nonempty. -/
def hintTitleLoop (r2 : List Char) : Nat → Option (Nat × List Char)
  | 0 =>
    let t := r2.takeWhile (fun c => !(c == '\n'))
    if t.length = 0 then none else some (0, t)
  | k + 1 =>
    let t := (r2.drop (k + 1)).takeWhile (fun c => !(c == '\n'))
    if t.length = 0 then hintTitleLoop r2 k else some (k + 1, t)

/-- Try the title pattern `[\s\n]*####\s*(.+)$` at one line start;
returns the length of the whole match and the captured title. -/
def hintTitleAt (cs : List Char) : Option (Nat × List Char) :=
  let w := cs.takeWhile (fun c => isWSChar c)
  (eatLit "####".data (cs.drop w.length)).bind fun r2 =>
  (hintTitleLoop r2 (r2.takeWhile (fun c => isWSChar c)).length).map fun p =>
    (w.length + 4 + p.1 + p.2.length, p.2)

/-- First match of the multiline title pattern: tries every
line-start position left to right. -/
def hintFindTitle : Nat → Bool → List Char → Option (Nat × Nat × List Char)
  | 0, _, _ => none
  | _ + 1, _, [] => none
  | fuel + 1, atLS, c :: cs =>
    if atLS then
      match hintTitleAt (c :: cs) with
      | some (len, t) => some (0, len, t)
      | none =>
        (hintFindTitle fuel (c == '\n') cs).map (fun p => (p.1 + 1, p.2.1, p.2.2))
    else
      (hintFindTitle fuel (c == '\n') cs).map (fun p => (p.1 + 1, p.2.1, p.2.2))

/-- The hint replacer (the callback of `convertHints`): maps the
style, lifts out a leading level-4 heading as the title, and emits
the `<Aside>`. -/
def hintRender (style inner : List Char) : List Char :=
  let asideType := (hintAsideType ⟨style⟩).data
  match hintFindTitle (inner.length + 1) true inner with
  | none =>
    "<Aside type=\"".data ++ asideType ++ "\">\n".data ++ trimWS inner ++ "\n</Aside>".data
  | some (pos, len, t) =>
    let escapedTitle := raL false ['"'] "&quot;".data (trimWS t)
    let body := inner.take pos ++ inner.drop (pos + len)
    "<Aside type=\"".data ++ asideType ++ "\" title=\"".data ++ escapedTitle ++
      "\">\n".data ++ trimWS body ++ "\n</Aside>".data

/-- A whole hint block at the current position. -/
def hintBlockAt (cs : List Char) : Option (List Char × List Char × List Char) :=
  (hintOpenAt cs).bind fun p =>
  (findPat endHintAt (p.2.length + 1) p.2).map fun q => (p.1, q.1, q.2)

def convertHintsGo : Nat → List Char → List Char
  | 0, s => s
  | _ + 1, [] => []
  | fuel + 1, c :: cs =>
    match hintBlockAt (c :: cs) with
    | some (style, inner, rest) => hintRender style inner ++ convertHintsGo fuel rest
    | none => c :: convertHintsGo fuel cs

/-- `convertHints`: rewrite every `{% hint %}…{% endhint %}` block. -/
def convertHints (content : String) : String :=
  ⟨convertHintsGo content.data.length content.data⟩

set_option maxHeartbeats 1600000 in
/-- C5.  The hint rewriter on
`{% hint style="warning" %}\n#### Careful\nBody text\n{% endhint %}`
produces a caution-type callout titled "Careful" whose body is
exactly "Body text"; the style map sends success→tip, info→note,
warning→caution, danger→danger and defaults to note. -/
theorem convertHints_heading_example :
    convertHints
        "\x7b% hint style=\"warning\" %\x7d\n#### Careful\nBody text\n\x7b% endhint %\x7d" =
      "<Aside type=\"caution\" title=\"Careful\">\nBody text\n</Aside>" ∧
    hintAsideType "success" = "tip" ∧
    hintAsideType "info" = "note" ∧
    hintAsideType "warning" = "caution" ∧
    hintAsideType "danger" = "danger" ∧
    hintAsideType "callout" = "note" :=
  ⟨by decide, by decide, by decide, by decide, by decide, by decide⟩

/-! ## `convertTabs` and `convertStepper` -/

/-- Opening `{% tabs … %}` (regex `\{%\s*tabs[^%]*%\}`). -/
def tabsOpenAt (cs : List Char) : Option (List Char) :=
  (eatLit "\x7b%".data cs).bind fun r1 =>
  (eatLit "tabs".data (eatWS r1)).bind fun r2 =>
  eatLit "%\x7d".data (r2.drop (r2.takeWhile (fun c => !(c == '%'))).length)

/-- `{% endtabs %}`. -/
def endTabsAt (cs : List Char) : Option (List Char) :=
  (eatLit "\x7b%".data cs).bind fun r1 =>
  (eatLit "endtabs".data (eatWS r1)).bind fun r2 =>
  eatLit "%\x7d".data (eatWS r2)

/-- `{% endtab %}` (stripped before item extraction). -/
def endTabAt (cs : List Char) : Option (List Char) :=
  (eatLit "\x7b%".data cs).bind fun r1 =>
  (eatLit "endtab".data (eatWS r1)).bind fun r2 =>
  eatLit "%\x7d".data (eatWS r2)

/-- Opening `{% tab title="…" %}`; returns the title and remainder. -/
def tabOpenAt (cs : List Char) : Option (List Char × List Char) :=
  (eatLit "\x7b%".data cs).bind fun r1 =>
  (eatLit "tab".data (eatWS r1)).bind fun r2 =>
  let w := r2.takeWhile (fun c => isWSChar c)
  if w.length = 0 then none
  else
    (eatLit "title=\"".data (r2.drop w.length)).bind fun r3 =>
    let title := r3.takeWhile (fun c => !(c == '"'))
    if title.length = 0 then none
    else
      (eatLit "\"".data (r3.drop title.length)).bind fun r4 =>
      (eatLit "%\x7d".data (eatWS r4)).map fun r5 => (title, r5)

/-- Item content runs to the next `{% tab title=` marker or to the end
(the regex lookahead). -/
def splitAtNextTabOpen : Nat → List Char → (List Char × List Char)
  | 0, s => (s, [])
  | _ + 1, [] => ([], [])
  | fuel + 1, c :: cs =>
    if (tabOpenAt (c :: cs)).isSome then ([], c :: cs)
    else
      let p := splitAtNextTabOpen fuel cs
      (c :: p.1, p.2)

def extractTabsGo : Nat → List Char → List (List Char × List Char)
  | 0, _ => []
  | _ + 1, [] => []
  | fuel + 1, c :: cs =>
    match tabOpenAt (c :: cs) with
    | some (title, rest) =>
      let p := splitAtNextTabOpen rest.length rest
      (title, trimWS p.1) :: extractTabsGo fuel p.2
    | none => extractTabsGo fuel cs

/-- The ordered `(title, content)` pairs of a tabs block's inner text
(end-tab markers removed first). -/
def extractTabs (inner : List Char) : List (List Char × List Char) :=
  let clean := scanRepl (fun cs => (endTabAt cs).map (fun r => ([], r))) inner.length inner
  extractTabsGo clean.length clean

/-- `<Tabs>` wrapper with one labelled `<TabItem>` per pair. -/
def renderTabs (tabs : List (List Char × List Char)) : List Char :=
  "<Tabs>\n".data ++
    joinSep '\n' (tabs.map (fun t =>
      "<TabItem label=\"".data ++ t.1 ++ "\">\n".data ++ t.2 ++ "\n</TabItem>".data)) ++
    "\n</Tabs>".data

/-- A whole tabs block at the current position: `(inner, rest)`. -/
def tabsBlockAt (cs : List Char) : Option (List Char × List Char) :=
  (tabsOpenAt cs).bind fun r1 =>
  findPat endTabsAt (r1.length + 1) r1

def convertTabsGo : Nat → List Char → List Char
  | 0, s => s
  | _ + 1, [] => []
  | fuel + 1, c :: cs =>
    match tabsBlockAt (c :: cs) with
    | some (inner, rest) =>
      let tabs := extractTabs inner
      if tabs.isEmpty then
        (c :: cs).take ((c :: cs).length - rest.length) ++ convertTabsGo fuel rest
      else renderTabs tabs ++ convertTabsGo fuel rest
    | none => c :: convertTabsGo fuel cs

/-- The inner texts of the tabs blocks the scan finds, in order. -/
def tabBlocksGo : Nat → List Char → List (List Char)
  | 0, _ => []
  | _ + 1, [] => []
  | fuel + 1, c :: cs =>
    match tabsBlockAt (c :: cs) with
    | some (inner, rest) => inner :: tabBlocksGo fuel rest
    | none => tabBlocksGo fuel cs

def convertTabs (content : String) : String :=
  ⟨convertTabsGo content.data.length content.data⟩

def tabBlocks (content : String) : List (List Char) :=
  tabBlocksGo content.data.length content.data

/-- Opening `{% stepper %}`. -/
def stepperOpenAt (cs : List Char) : Option (List Char) :=
  (eatLit "\x7b%".data cs).bind fun r1 =>
  (eatLit "stepper".data (eatWS r1)).bind fun r2 =>
  eatLit "%\x7d".data (eatWS r2)

/-- `{% endstepper %}`. -/
def endStepperAt (cs : List Char) : Option (List Char) :=
  (eatLit "\x7b%".data cs).bind fun r1 =>
  (eatLit "endstepper".data (eatWS r1)).bind fun r2 =>
  eatLit "%\x7d".data (eatWS r2)

/-- `{% endstep %}` (stripped before step extraction). -/
def endStepAt (cs : List Char) : Option (List Char) :=
  (eatLit "\x7b%".data cs).bind fun r1 =>
  (eatLit "endstep".data (eatWS r1)).bind fun r2 =>
  eatLit "%\x7d".data (eatWS r2)

/-- Opening `{% step %}`. -/
def stepOpenAt (cs : List Char) : Option (List Char) :=
  (eatLit "\x7b%".data cs).bind fun r1 =>
  (eatLit "step".data (eatWS r1)).bind fun r2 =>
  eatLit "%\x7d".data (eatWS r2)

def splitAtNextStepOpen : Nat → List Char → (List Char × List Char)
  | 0, s => (s, [])
  | _ + 1, [] => ([], [])
  | fuel + 1, c :: cs =>
    if (stepOpenAt (c :: cs)).isSome then ([], c :: cs)
    else
      let p := splitAtNextStepOpen fuel cs
      (c :: p.1, p.2)

def extractStepsGo : Nat → List Char → List (List Char)
  | 0, _ => []
  | _ + 1, [] => []
  | fuel + 1, c :: cs =>
    match stepOpenAt (c :: cs) with
    | some rest =>
      let p := splitAtNextStepOpen rest.length rest
      trimWS p.1 :: extractStepsGo fuel p.2
    | none => extractStepsGo fuel cs

/-- The ordered step bodies of a stepper block's inner text. -/
def extractSteps (inner : List Char) : List (List Char) :=
  let clean := scanRepl (fun cs => (endStepAt cs).map (fun r => ([], r))) inner.length inner
  extractStepsGo clean.length clean

def renderStepsGo : Nat → List (List Char) → List (List Char)
  | _, [] => []
  | i, s :: rest => ((toString i).data ++ ". ".data ++ s) :: renderStepsGo (i + 1) rest

/-- Join with a multi-character separator (JS `Array.join`). -/
def joinSepL (sep : List Char) : List (List Char) → List Char
  | [] => []
  | [x] => x
  | x :: y :: t => x ++ sep ++ joinSepL sep (y :: t)

/-- 1-based numbered list, blank line between items. -/
def renderSteps (steps : List (List Char)) : List Char :=
  joinSepL "\n\n".data (renderStepsGo 1 steps)

def stepBlockAt (cs : List Char) : Option (List Char × List Char) :=
  (stepperOpenAt cs).bind fun r1 =>
  findPat endStepperAt (r1.length + 1) r1

def convertStepperGo : Nat → List Char → List Char
  | 0, s => s
  | _ + 1, [] => []
  | fuel + 1, c :: cs =>
    match stepBlockAt (c :: cs) with
    | some (inner, rest) =>
      let steps := extractSteps inner
      if steps.isEmpty then
        (c :: cs).take ((c :: cs).length - rest.length) ++ convertStepperGo fuel rest
      else renderSteps steps ++ convertStepperGo fuel rest
    | none => c :: convertStepperGo fuel cs

def stepBlocksGo : Nat → List Char → List (List Char)
  | 0, _ => []
  | _ + 1, [] => []
  | fuel + 1, c :: cs =>
    match stepBlockAt (c :: cs) with
    | some (inner, rest) => inner :: stepBlocksGo fuel rest
    | none => stepBlocksGo fuel cs

def convertStepper (content : String) : String :=
  ⟨convertStepperGo content.data.length content.data⟩

def stepBlocks (content : String) : List (List Char) :=
  stepBlocksGo content.data.length content.data

/-! ## C6: empty groups and unmatched markers leave text unchanged -/

theorem drop_suffix_my (n : Nat) (l : List Char) : l.drop n <:+ l :=
  ⟨l.take n, List.take_append_drop n l⟩

theorem eatWS_suffix (cs : List Char) : eatWS cs <:+ cs :=
  ⟨cs.takeWhile (fun c => isWSChar c), List.takeWhile_append_dropWhile _ _⟩

theorem eatLit_suffix (p cs r : List Char) (h : eatLit p cs = some r) : r <:+ cs := by
  rw [matchesPat_some_drop false p cs r h]
  exact drop_suffix_my p.length cs

theorem cons_suffix_my (c : Char) (l : List Char) : l <:+ c :: l := ⟨[c], rfl⟩

theorem suffix_take_append {rest cs : List Char} (h : rest <:+ cs) :
    cs.take (cs.length - rest.length) ++ rest = cs := by
  obtain ⟨t, ht⟩ := h
  rw [← ht, List.length_append, Nat.add_sub_cancel, List.take_left]

theorem tabsOpenAt_suffix (cs r : List Char) (h : tabsOpenAt cs = some r) : r <:+ cs := by
  unfold tabsOpenAt at h
  rcases Option.bind_eq_some.mp h with ⟨r1, h1, h'⟩
  rcases Option.bind_eq_some.mp h' with ⟨r2, h2, h3⟩
  exact (eatLit_suffix _ _ _ h3).trans ((drop_suffix_my _ _).trans
    ((eatLit_suffix _ _ _ h2).trans ((eatWS_suffix r1).trans (eatLit_suffix _ _ _ h1))))

theorem endTabsAt_suffix (cs r : List Char) (h : endTabsAt cs = some r) : r <:+ cs := by
  unfold endTabsAt at h
  rcases Option.bind_eq_some.mp h with ⟨r1, h1, h'⟩
  rcases Option.bind_eq_some.mp h' with ⟨r2, h2, h3⟩
  exact (eatLit_suffix _ _ _ h3).trans ((eatWS_suffix r2).trans
    ((eatLit_suffix _ _ _ h2).trans ((eatWS_suffix r1).trans (eatLit_suffix _ _ _ h1))))

theorem stepperOpenAt_suffix (cs r : List Char) (h : stepperOpenAt cs = some r) : r <:+ cs := by
  unfold stepperOpenAt at h
  rcases Option.bind_eq_some.mp h with ⟨r1, h1, h'⟩
  rcases Option.bind_eq_some.mp h' with ⟨r2, h2, h3⟩
  exact (eatLit_suffix _ _ _ h3).trans ((eatWS_suffix r2).trans
    ((eatLit_suffix _ _ _ h2).trans ((eatWS_suffix r1).trans (eatLit_suffix _ _ _ h1))))

theorem endStepperAt_suffix (cs r : List Char) (h : endStepperAt cs = some r) : r <:+ cs := by
  unfold endStepperAt at h
  rcases Option.bind_eq_some.mp h with ⟨r1, h1, h'⟩
  rcases Option.bind_eq_some.mp h' with ⟨r2, h2, h3⟩
  exact (eatLit_suffix _ _ _ h3).trans ((eatWS_suffix r2).trans
    ((eatLit_suffix _ _ _ h2).trans ((eatWS_suffix r1).trans (eatLit_suffix _ _ _ h1))))

theorem findPat_suffix (m : List Char → Option (List Char))
    (hm : ∀ s r, m s = some r → r <:+ s) :
    ∀ (fuel : Nat) (s pre rest : List Char),
      findPat m fuel s = some (pre, rest) → rest <:+ s := by
  intro fuel
  induction fuel with
  | zero => intro s pre rest h; simp [findPat] at h
  | succ fuel ih =>
    intro s pre rest h
    cases s with
    | nil =>
      cases h0 : m [] with
      | some r =>
        simp [findPat, h0] at h
        rw [← h.2]
        exact hm _ _ h0
      | none => simp [findPat, h0] at h
    | cons c cs =>
      cases h0 : m (c :: cs) with
      | some r =>
        simp [findPat, h0] at h
        rw [← h.2]
        exact hm _ _ h0
      | none =>
        rw [show findPat m (fuel + 1) (c :: cs) =
            (findPat m fuel cs).map (fun p => (c :: p.1, p.2)) from by
          simp [findPat, h0]] at h
        rcases Option.map_eq_some'.mp h with ⟨⟨p1, p2⟩, hfind, hmap⟩
        have hp2 : p2 = rest := congrArg Prod.snd hmap
        subst hp2
        exact (ih cs p1 p2 hfind).trans (cons_suffix_my c cs)

theorem tabsBlockAt_suffix (cs inner rest : List Char)
    (h : tabsBlockAt cs = some (inner, rest)) : rest <:+ cs := by
  unfold tabsBlockAt at h
  rcases Option.bind_eq_some.mp h with ⟨r1, h1, h2⟩
  exact (findPat_suffix endTabsAt endTabsAt_suffix _ _ _ _ h2).trans
    (tabsOpenAt_suffix cs r1 h1)

theorem stepBlockAt_suffix (cs inner rest : List Char)
    (h : stepBlockAt cs = some (inner, rest)) : rest <:+ cs := by
  unfold stepBlockAt at h
  rcases Option.bind_eq_some.mp h with ⟨r1, h1, h2⟩
  exact (findPat_suffix endStepperAt endStepperAt_suffix _ _ _ _ h2).trans
    (stepperOpenAt_suffix cs r1 h1)

theorem convertTabsGo_unchanged :
    ∀ (fuel : Nat) (s : List Char),
      (tabBlocksGo fuel s).all (fun inner => (extractTabs inner).isEmpty) = true →
      convertTabsGo fuel s = s := by
  intro fuel
  induction fuel with
  | zero => intro s _; rfl
  | succ fuel ih =>
    intro s hall
    cases s with
    | nil => rfl
    | cons c cs =>
      cases hb : tabsBlockAt (c :: cs) with
      | none =>
        rw [show convertTabsGo (fuel + 1) (c :: cs) = c :: convertTabsGo fuel cs from by
          simp [convertTabsGo, hb]]
        rw [show tabBlocksGo (fuel + 1) (c :: cs) = tabBlocksGo fuel cs from by
          simp [tabBlocksGo, hb]] at hall
        rw [ih cs hall]
      | some p =>
        obtain ⟨inner, rest⟩ := p
        rw [show tabBlocksGo (fuel + 1) (c :: cs) = inner :: tabBlocksGo fuel rest from by
          simp [tabBlocksGo, hb]] at hall
        simp only [List.all_cons, Bool.and_eq_true] at hall
        obtain ⟨h1, h2⟩ := hall
        rw [show convertTabsGo (fuel + 1) (c :: cs) =
            (c :: cs).take ((c :: cs).length - rest.length) ++ convertTabsGo fuel rest from by
          simp [convertTabsGo, hb, h1]]
        rw [ih rest h2]
        exact suffix_take_append (tabsBlockAt_suffix _ _ _ hb)

theorem convertStepperGo_unchanged :
    ∀ (fuel : Nat) (s : List Char),
      (stepBlocksGo fuel s).all (fun inner => (extractSteps inner).isEmpty) = true →
      convertStepperGo fuel s = s := by
  intro fuel
  induction fuel with
  | zero => intro s _; rfl
  | succ fuel ih =>
    intro s hall
    cases s with
    | nil => rfl
    | cons c cs =>
      cases hb : stepBlockAt (c :: cs) with
      | none =>
        rw [show convertStepperGo (fuel + 1) (c :: cs) = c :: convertStepperGo fuel cs from by
          simp [convertStepperGo, hb]]
        rw [show stepBlocksGo (fuel + 1) (c :: cs) = stepBlocksGo fuel cs from by
          simp [stepBlocksGo, hb]] at hall
        rw [ih cs hall]
      | some p =>
        obtain ⟨inner, rest⟩ := p
        rw [show stepBlocksGo (fuel + 1) (c :: cs) = inner :: stepBlocksGo fuel rest from by
          simp [stepBlocksGo, hb]] at hall
        simp only [List.all_cons, Bool.and_eq_true] at hall
        obtain ⟨h1, h2⟩ := hall
        rw [show convertStepperGo (fuel + 1) (c :: cs) =
            (c :: cs).take ((c :: cs).length - rest.length) ++ convertStepperGo fuel rest from by
          simp [convertStepperGo, hb, h1]]
        rw [ih rest h2]
        exact suffix_take_append (stepBlockAt_suffix _ _ _ hb)

/-- C6.  A tabs block from which zero tab items are extracted and a
stepper block from which zero steps are extracted leave the input
byte-identical (in particular an opening marker with no matching end
marker, which yields no block at all, leaves the text unchanged). -/
theorem emptyGroups_leave_text_unchanged :
    (∀ s : String,
      (tabBlocks s).all (fun inner => (extractTabs inner).isEmpty) = true →
      convertTabs s = s) ∧
    (∀ s : String,
      (stepBlocks s).all (fun inner => (extractSteps inner).isEmpty) = true →
      convertStepper s = s) := by
  constructor
  · intro s h
    show String.mk (convertTabsGo s.data.length s.data) = s
    rw [convertTabsGo_unchanged s.data.length s.data h]
  · intro s h
    show String.mk (convertStepperGo s.data.length s.data) = s
    rw [convertStepperGo_unchanged s.data.length s.data h]

set_option maxHeartbeats 1600000 in
/-- Witness for C6: a tabs block and a stepper block with no items,
and a tabs opening marker with no end marker, all pass through
byte-identical. -/
theorem emptyGroups_leave_text_unchanged_witness :
    (tabBlocks "\x7b% tabs %\x7dplain text\x7b% endtabs %\x7d").all
        (fun inner => (extractTabs inner).isEmpty) = true ∧
    convertTabs "\x7b% tabs %\x7dplain text\x7b% endtabs %\x7d" =
      "\x7b% tabs %\x7dplain text\x7b% endtabs %\x7d" ∧
    (stepBlocks "\x7b% stepper %\x7dno steps\x7b% endstepper %\x7d").all
        (fun inner => (extractSteps inner).isEmpty) = true ∧
    convertStepper "\x7b% stepper %\x7dno steps\x7b% endstepper %\x7d" =
      "\x7b% stepper %\x7dno steps\x7b% endstepper %\x7d" ∧
    convertTabs "\x7b% tabs %\x7d never closed" = "\x7b% tabs %\x7d never closed" :=
  ⟨by decide,
   emptyGroups_leave_text_unchanged.1 _ (by decide),
   by decide,
   emptyGroups_leave_text_unchanged.2 _ (by decide),
   emptyGroups_leave_text_unchanged.1 _ (by decide)⟩

/-! ## `convertCards` -/

/-- Consume a case-insensitive literal. -/
def eatLitCI (p cs : List Char) : Option (List Char) := matchesPat true p cs

/-- First occurrence of the literal `p`: text before and text after. -/
def findSub (p : List Char) : List Char → Option (List Char × List Char)
  | [] => (eatLit p []).map (fun r => (([] : List Char), r))
  | c :: cs =>
    match eatLit p (c :: cs) with
    | some rest => some ([], rest)
    | none => (findSub p cs).map (fun pr => (c :: pr.1, pr.2))

/-- First occurrence of the case-insensitive literal `p` (non-greedy
`[\s\S]*?` up to `p`): text before and text after. -/
def findCI (pat s : List Char) : Option (List Char × List Char) :=
  findPat (fun cs => matchesPat true pat cs) (s.length + 1) s

/-- First value produced by `m` at any position (JS `String.match`). -/
def findSome {α : Type} (m : List Char → Option α) : Nat → List Char → Option α
  | 0, _ => none
  | _ + 1, [] => m []
  | fuel + 1, c :: cs =>
    match m (c :: cs) with
    | some v => some v
    | none => findSome m fuel cs

/-- JS `String.prototype.replace` with a plain-string pattern:
replaces the first occurrence only. -/
def jsReplaceFirst (pat rep s : List Char) : List Char :=
  match findSub pat s with
  | some (before, after) => before ++ rep ++ after
  | none => s

/-- Opening `<table … data-view="cards" … >` (`/<table\s+data-view="cards"[^>]*>/i`). -/
def cardTableOpenAt (cs : List Char) : Option (List Char) :=
  (eatLitCI "<table".data cs).bind fun r1 =>
  let w := r1.takeWhile (fun c => isWSChar c)
  if w.length = 0 then none
  else
    (eatLitCI "data-view=\"cards\"".data (r1.drop w.length)).bind fun r2 =>
    let junk := r2.takeWhile (fun c => !(c == '>'))
    eatLit ">".data (r2.drop junk.length)

/-- `/<a\s+href="([^"]+)"[^>]*>([^<]*)<\/a>/i`: returns the href. -/
def aHrefAt (cs : List Char) : Option (List Char) :=
  (eatLitCI "<a".data cs).bind fun r1 =>
  let w := r1.takeWhile (fun c => isWSChar c)
  if w.length = 0 then none
  else
    (eatLitCI "href=\"".data (r1.drop w.length)).bind fun r2 =>
    let href := r2.takeWhile (fun c => !(c == '"'))
    if href.length = 0 then none
    else
      (eatLit "\"".data (r2.drop href.length)).bind fun r3 =>
      let junk := r3.takeWhile (fun c => !(c == '>'))
      (eatLit ">".data (r3.drop junk.length)).bind fun r4 =>
      let txt := r4.takeWhile (fun c => !(c == '<'))
      (eatLitCI "</a>".data (r4.drop txt.length)).map fun _ => href

/-- `/<a\s+href="([^"]+)"/i` (cover-image cell): returns the href. -/
def aHrefOpenAt (cs : List Char) : Option (List Char) :=
  (eatLitCI "<a".data cs).bind fun r1 =>
  let w := r1.takeWhile (fun c => isWSChar c)
  if w.length = 0 then none
  else
    (eatLitCI "href=\"".data (r1.drop w.length)).bind fun r2 =>
    let href := r2.takeWhile (fun c => !(c == '"'))
    if href.length = 0 then none
    else
      (eatLit "\"".data (r2.drop href.length)).map fun _ => href

/-- `<strong>` or `</strong>` (`/<\/?strong>/g`, case-sensitive). -/
def strongTagAt (cs : List Char) : Option (List Char) :=
  (eatLit "<".data cs).bind fun r1 =>
  match r1 with
  | '/' :: r2 => eatLit "strong>".data r2
  | _ => eatLit "strong>".data r1

/-- `cells[0].replace(/<\/?strong>/g, '')`. -/
def stripStrong (cell : List Char) : List Char :=
  scanRepl (fun cs => (strongTagAt cs).map (fun r => (([] : List Char), r)))
    cell.length cell

/-- Repeated `/<tr>([\s\S]*?)<\/tr>/gi` extraction. -/
def extractRows : Nat → List Char → List (List Char)
  | 0, _ => []
  | fuel + 1, s =>
    match findCI "<tr>".data s with
    | none => []
    | some (_, afterOpen) =>
      match findCI "</tr>".data afterOpen with
      | none => []
      | some (content, rest) => content :: extractRows fuel rest

/-- Repeated `/<td>([\s\S]*?)<\/td>/gi` extraction, cells trimmed. -/
def extractCells : Nat → List Char → List (List Char)
  | 0, _ => []
  | fuel + 1, s =>
    match findCI "<td>".data s with
    | none => []
    | some (_, afterOpen) =>
      match findCI "</td>".data afterOpen with
      | none => []
      | some (content, rest) => trimWS content :: extractCells fuel rest

/-- One card-view table row: title, link target, cover reference. -/
structure CardRow where
  title : List Char
  link : List Char
  cover : List Char

/-- A table row's extracted card data; rows with zero cells are
dropped. -/
def rowToCard (rowContent : List Char) : Option CardRow :=
  let cells := extractCells (rowContent.length + 1) rowContent
  match cells with
  | [] => none
  | c0 :: _ =>
    let title := stripStrong c0
    let link :=
      ((cells.get? 1).bind (fun cell => findSome aHrefAt (cell.length + 1) cell)).getD []
    let cover :=
      ((cells.get? 2).bind (fun cell => findSome aHrefOpenAt (cell.length + 1) cell)).getD []
    some ⟨title, link, cover⟩

/-- One `<Card …/>` line: the href is the row's link with the first
occurrence of `.md` removed (`row.link.replace('.md', '')`). -/
def cardItemLine (row : CardRow) : List Char :=
  "  <Card title=\"".data ++ row.title ++ "\" href=\"".data ++
    jsReplaceFirst ".md".data [] row.link ++ "\" />".data

/-- `<CardGrid>` wrapper with one card per row. -/
def renderCards (rows : List CardRow) : List Char :=
  "<CardGrid>\n".data ++ joinSep '\n' (rows.map cardItemLine) ++ "\n</CardGrid>".data

/-- The replacement for one card-view table (or `none` when the
original text must be left in place). -/
def cardReplace (tableContent : List Char) : Option (List Char) :=
  match findCI "<tbody>".data tableContent with
  | none => none
  | some (_, afterOpen) =>
    match findCI "</tbody>".data afterOpen with
    | none => none
    | some (tbodyContent, _) =>
      let rows := (extractRows (tbodyContent.length + 1) tbodyContent).filterMap rowToCard
      if rows.isEmpty then none
      else some (renderCards rows)

/-- A whole card-view table at the current position: `(inner, rest)`. -/
def cardTableBlockAt (cs : List Char) : Option (List Char × List Char) :=
  (cardTableOpenAt cs).bind fun r1 => findCI "</table>".data r1

def convertCardsGo : Nat → List Char → List Char
  | 0, s => s
  | _ + 1, [] => []
  | fuel + 1, c :: cs =>
    match cardTableBlockAt (c :: cs) with
    | some (tableContent, rest) =>
      (match cardReplace tableContent with
       | some out => out
       | none => (c :: cs).take ((c :: cs).length - rest.length)) ++
        convertCardsGo fuel rest
    | none => c :: convertCardsGo fuel cs

/-- `convertCards`: restructure card-view tables into card grids. -/
def convertCards (content : String) : String :=
  ⟨convertCardsGo content.data.length content.data⟩

/-- Modelled from the spec (amended C9): the card link with the
first occurrence of `.md` deleted; unchanged when `.md` does not
occur in it. -/
def specCardHref (link : List Char) : List Char :=
  match findSub ".md".data link with
  | some (before, after) => before ++ after
  | none => link

theorem jsReplaceFirst_empty_rep (l : List Char) :
    jsReplaceFirst ".md".data [] l = specCardHref l := by
  unfold jsReplaceFirst specCardHref
  cases h : findSub ".md".data l with
  | none => rfl
  | some p => simp

set_option maxRecDepth 10000 in
set_option maxHeartbeats 1600000 in
/-- Counterexample for C9: the card href is computed with
`link.replace('.md', '')`, which deletes the first occurrence of
`.md` anywhere, not a suffix: the row link `page.mdx` does not end in
`.md`, yet its card href becomes `pagex` instead of staying
unchanged. -/
theorem convertCards_strips_interior_md :
    convertCards "<table data-view=\"cards\"><tbody><tr><td>T</td><td><a href=\"page.mdx\">x</a></td></tr></tbody></table>" =
      "<CardGrid>\n  <Card title=\"T\" href=\"pagex\" />\n</CardGrid>" ∧
    strEndsWith "page.mdx" ".md" = false ∧
    convertCards "<table data-view=\"cards\"><tbody><tr><td>T</td><td><a href=\"page.mdx\">x</a></td></tr></tbody></table>" ≠
      "<CardGrid>\n  <Card title=\"T\" href=\"page.mdx\" />\n</CardGrid>" :=
  ⟨by decide, by decide, by decide⟩

set_option maxRecDepth 10000 in
set_option maxHeartbeats 1600000 in
/-- C9 (amended).  Every card-view table row that yields a card is
emitted as one card element inside a card-grid wrapper, and its href
is the row's extracted link with the first occurrence of `.md`
removed (the link is unchanged when it does not contain `.md`); on a
concrete two-row table this strips the `.md` suffixes. -/
theorem convertCards_one_card_per_row :
    (∀ rows : List CardRow,
      renderCards rows =
        "<CardGrid>\n".data ++
          joinSep '\n' (rows.map (fun row =>
            "  <Card title=\"".data ++ row.title ++ "\" href=\"".data ++
              specCardHref row.link ++ "\" />".data)) ++
          "\n</CardGrid>".data) ∧
    convertCards "<table data-view=\"cards\"><tbody><tr><td>A</td><td><a href=\"a.md\">t</a></td></tr><tr><td>B</td><td><a href=\"sub/b.md\">u</a></td></tr></tbody></table>" =
      "<CardGrid>\n  <Card title=\"A\" href=\"a\" />\n  <Card title=\"B\" href=\"sub/b\" />\n</CardGrid>" := by
  constructor
  · intro rows
    unfold renderCards cardItemLine
    congr 1
    congr 1
    apply congrArg (joinSep '\n')
    apply List.map_congr_left
    intro row _
    rw [jsReplaceFirst_empty_rep]
  · decide

/-! ## `processFrontmatter` -/

/-- `line.match(/^(\w+):\s*(.*)?$/)` (the `!line.startsWith(' ')`
guard is implied: a `\w+` match cannot start with a space).  Returns
the key and the value with the whitespace after the colon dropped. -/
def jsKeyMatch (line : List Char) : Option (List Char × List Char) :=
  let w := line.takeWhile (fun c => isWordChar c)
  if w.length = 0 then none
  else
    match line.drop w.length with
    | ':' :: rest => some (w, rest.dropWhile (fun c => isWSChar c))
    | _ => none

/-- `line.match(/^\s{2,}\w+:/)`. -/
def isNestedKeyLine (line : List Char) : Bool :=
  let w := line.takeWhile (fun c => isWSChar c)
  if w.length < 2 then false
  else
    let k := (line.drop w.length).takeWhile (fun c => isWordChar c)
    if k.length = 0 then false
    else
      match (line.drop w.length).drop k.length with
      | ':' :: _ => true
      | _ => false

/-- `line.replace(/^  /, '')`. -/
def stripTwoSpaces (line : List Char) : List Char :=
  if bPre "  ".data line then line.drop 2 else line

/-- The mutable state of the frontmatter parsing loop. -/
structure FMSt where
  fm : List (List Char × List Char)
  currentKey : Option (List Char)
  currentValue : List (List Char)
  multilineMode : Option (List Char)
  inNestedBlock : Bool

/-- `fm[k] = v` (JS object assignment). -/
def setKey (m : List (List Char × List Char)) (k v : List Char) : List (List Char × List Char) :=
  match m with
  | [] => [(k, v)]
  | (k', v') :: rest => if k' = k then (k, v) :: rest else (k', v') :: setKey rest k v

/-- `fm[k]` (JS object lookup). -/
def getKey (m : List (List Char × List Char)) (k : List Char) : Option (List Char) :=
  match m with
  | [] => none
  | (k', v') :: rest => if k' = k then some v' else getKey rest k

/-- Flush the pending key: joined with spaces (or newlines in `|`
mode) and trimmed; skipped inside a dropped nested block. -/
def saveCurrent (st : FMSt) : List (List Char × List Char) :=
  match st.currentKey with
  | none => st.fm
  | some k =>
    if st.inNestedBlock then st.fm
    else
      let joiner := if st.multilineMode = some "|".data then "\n".data else " ".data
      let v :=
        if 0 < st.currentValue.length then trimWS (joinSepL joiner st.currentValue)
        else []
      setKey st.fm k v

/-- The state transition for a matched `key: value` line (the first
arm of the loop body): flush the previous key, then start the new
one in multiline, nested-block or plain mode. -/
def fmKeyStep (st : FMSt) (k value : List Char) (nextLine : Option (List Char)) : FMSt :=
  let fm' := saveCurrent st
  if value = ">-".data ∨ value = "|".data ∨ value = ">".data then
    { fm := fm', currentKey := some k, currentValue := [],
      multilineMode := some value, inNestedBlock := false }
  else if value = [] then
    match nextLine with
    | some nl =>
      if isNestedKeyLine nl then
        { fm := fm', currentKey := some k, currentValue := [],
          multilineMode := st.multilineMode, inNestedBlock := true }
      else
        { fm := fm', currentKey := some k, currentValue := [],
          multilineMode := none, inNestedBlock := false }
    | none =>
      { fm := fm', currentKey := some k, currentValue := [],
        multilineMode := none, inNestedBlock := false }
  else
    { fm := fm', currentKey := some k, currentValue := [value],
      multilineMode := none, inNestedBlock := false }

/-- The state transition for a non-key line (the second arm of the
loop body): a continuation line is appended to the pending value
unless it looks like a nested key or the loop is inside a dropped
block. -/
def fmContStep (st : FMSt) (line : List Char) : FMSt :=
  if st.currentKey.isSome = true ∧ st.inNestedBlock = false ∧
      (bPre "  ".data line = true ∨ trimWS line = []) then
    if isNestedKeyLine line then st
    else { st with currentValue := st.currentValue ++ [trimWS (stripTwoSpaces line)] }
  else st

/-- The line-by-line frontmatter parsing loop of `processFrontmatter`
(with one line of lookahead for nested-block detection). -/
def fmLoop : List (List Char) → FMSt → FMSt
  | [], st => st
  | line :: restLines, st =>
    match jsKeyMatch line with
    | some (k, value) => fmLoop restLines (fmKeyStep st k value restLines.head?)
    | none => fmLoop restLines (fmContStep st line)

/-- The initial loop state. -/
def initFMSt : FMSt :=
  { fm := [], currentKey := none, currentValue := [],
    multilineMode := none, inNestedBlock := false }

/-- `\s+(.+)$` after the `#`: greedy whitespace (at least one), given
back until one line of non-newline characters is nonempty. -/
def wsPlusTitleLoop (r : List Char) : Nat → Option (List Char)
  | 0 => none
  | k + 1 =>
    let tl := (r.drop (k + 1)).takeWhile (fun c => !(c == '\n'))
    if tl.length = 0 then wsPlusTitleLoop r k else some tl

/-- The pattern `#\s+(.+)$` at one line start. -/
def titleHeadingAt (cs : List Char) : Option (List Char) :=
  match cs with
  | '#' :: rest => wsPlusTitleLoop rest (rest.takeWhile (fun c => isWSChar c)).length
  | _ => none

/-- First match of `/^#\s+(.+)$/m`, scanning line starts. -/
def findHeading : Nat → Bool → List Char → Option (List Char)
  | 0, _, _ => none
  | _ + 1, _, [] => none
  | fuel + 1, atLS, c :: cs =>
    if atLS then
      match titleHeadingAt (c :: cs) with
      | some tl => some tl
      | none => findHeading fuel (c == '\n') cs
    else findHeading fuel (c == '\n') cs

/-- `extractTitleFromContent`: first level-1 heading's text, trimmed. -/
def extractTitleFromContent (content : List Char) : Option (List Char) :=
  (findHeading (content.length + 1) true content).map trimWS

/-- `fm.title.replace(/^["']|["']$/g, '')`: strips at most one
leading and one trailing quote character. -/
def stripEdgeQuotes (v : List Char) : List Char :=
  let v1 :=
    match v with
    | c :: rest => if c = '"' ∨ c = '\x27' then rest else v
    | [] => []
  match v1.getLast? with
  | some c => if c = '"' ∨ c = '\x27' then v1.dropLast else v1
  | none => v1

/-- `desc.replace(/'/g, "''")`. -/
def escSingleQuotes (d : List Char) : List Char :=
  raL false ['\x27'] "\x27\x27".data d

/-- JS falsiness of a possibly-absent string value. -/
def jsFalsy (o : Option (List Char)) : Bool :=
  match o with
  | none => true
  | some v => v.isEmpty

/-- `a || b` at the character-list level. -/
def jsOrL (a b : List Char) : List Char := if a.isEmpty then b else a

/-- The anchored pattern `^---\n([\s\S]*?)\n---`: the raw preamble
and the rest of the document after the closing fence. -/
def fmMatch (cs : List Char) : Option (List Char × List Char) :=
  match eatLit "---\n".data cs with
  | none => none
  | some rest => findSub "\n---".data rest

/-- The emitted preamble lines: `title` always, `description` when
present and nonempty, `draft: true` when `hidden` is exactly `true`,
a commented-out `icon` when present. -/
def buildNewFm (fm : List (List Char × List Char)) (body filePath : List Char) : List (List Char) :=
  let titleLine :=
    if jsFalsy (getKey fm "title".data) then
      let tl := jsOrL ((extractTitleFromContent body).getD [])
        (basenameExtL filePath ".md".data)
      "title: \"".data ++ tl ++ "\"".data
    else
      "title: \"".data ++ stripEdgeQuotes ((getKey fm "title".data).getD []) ++ "\"".data
  [titleLine] ++
    (match getKey fm "description".data with
     | some dsc =>
       if dsc.isEmpty then []
       else ["description: \x27".data ++ escSingleQuotes dsc ++ "\x27".data]
     | none => []) ++
    (if getKey fm "hidden".data = some "true".data then ["draft: true".data] else []) ++
    (match getKey fm "icon".data with
     | some ic => if ic.isEmpty then [] else ["# icon: ".data ++ ic]
     | none => [])

/-- `processFrontmatter` at the character-list level. -/
def processFrontmatterL (content filePath : List Char) : List Char :=
  match fmMatch content with
  | none =>
    let tl := jsOrL ((extractTitleFromContent content).getD [])
      (basenameExtL filePath ".md".data)
    "---\ntitle: \"".data ++ tl ++ "\"\n---\n\n".data ++ content
  | some (raw, body) =>
    let lines := splitOnChar '\n' raw
    let fm := saveCurrent (fmLoop lines initFMSt)
    "---\n".data ++ joinSep '\n' (buildNewFm fm body filePath) ++ "\n---\n".data ++ body

/-- `processFrontmatter`: re-emit the preamble in the target format. -/
def processFrontmatter (content filePath : String) : String :=
  ⟨processFrontmatterL content.data filePath.data⟩

/-! ## C7: symbolic execution of the frontmatter machine -/

/-- No newline in the list is immediately followed by a dash, so the
closing-fence pattern `\n---` cannot begin inside it. -/
def nlSafe : List Char → Bool
  | [] => true
  | [_] => true
  | a :: b :: rest => !(a == '\n' && b == '-') && nlSafe (b :: rest)

theorem nlSafe_tail (a : Char) (l : List Char) (h : nlSafe (a :: l) = true) :
    nlSafe l = true := by
  cases l with
  | nil => rfl
  | cons b rest =>
    rw [show nlSafe (a :: b :: rest) =
        (!(a == '\n' && b == '-') && nlSafe (b :: rest)) from rfl] at h
    simp only [Bool.and_eq_true] at h
    exact h.2

theorem nlSafe_of_noNl (l : List Char) (h : '\n' ∉ l) : nlSafe l = true := by
  induction l with
  | nil => rfl
  | cons a l ih =>
    cases l with
    | nil => rfl
    | cons b rest =>
      have ha : ¬ a = '\n' := fun he => h (by simp [he])
      have h2 : nlSafe (b :: rest) = true := ih (fun hm => h (List.mem_cons_of_mem _ hm))
      show (!(a == '\n' && b == '-') && nlSafe (b :: rest)) = true
      simp [ha, h2]

theorem nlSafe_append (u w : List Char) (hu : '\n' ∉ u) (hw : nlSafe w = true) :
    nlSafe (u ++ w) = true := by
  induction u with
  | nil => simpa
  | cons a u ih =>
    have ha : ¬ a = '\n' := fun he => hu (by simp [he])
    have h' : nlSafe (u ++ w) = true := ih (fun hm => hu (List.mem_cons_of_mem _ hm))
    rw [List.cons_append]
    cases hx : u ++ w with
    | nil => rfl
    | cons b rest =>
      rw [hx] at h'
      show (!(a == '\n' && b == '-') && nlSafe (b :: rest)) = true
      simp [ha, h']

theorem nlSafe_nl_cons (w : List Char) (hw : nlSafe w = true)
    (hh : ∀ b, w.head? = some b → b ≠ '-') :
    nlSafe ('\n' :: w) = true := by
  cases w with
  | nil => rfl
  | cons b rest =>
    have hb : ¬ b = '-' := hh b rfl
    show (!('\n' == '\n' && b == '-') && nlSafe (b :: rest)) = true
    simp [hb, hw]

theorem eatLit_self (p r : List Char) : eatLit p (p ++ r) = some r := by
  induction p with
  | nil => rfl
  | cons a p ih =>
    rw [List.cons_append]
    show matchesPat false (a :: p) (a :: (p ++ r)) = some r
    rw [matchesPat, if_pos (by simp [chEq])]
    exact ih

theorem findSub_boundary (u v : List Char) (h : nlSafe u = true) :
    findSub "\n---".data (u ++ ("\n---".data ++ v)) = some (u, v) := by
  induction u with
  | nil =>
    have he : eatLit "\n---".data ("\n---".data ++ v) = some v := eatLit_self _ _
    rw [List.nil_append]
    rw [show findSub "\n---".data ("\n---".data ++ v) =
        (match eatLit "\n---".data ("\n---".data ++ v) with
         | some rest => some (([] : List Char), rest)
         | none =>
           (findSub "\n---".data ("---".data ++ v)).map (fun pr => ('\n' :: pr.1, pr.2)))
        from rfl]
    rw [he]
  | cons c u ih =>
    have htail : nlSafe u = true := nlSafe_tail c u h
    have hnone : eatLit "\n---".data (c :: (u ++ ("\n---".data ++ v))) = none := by
      by_cases hc : c = '\n'
      · subst hc
        cases u with
        | nil =>
          show matchesPat false "\n---".data ('\n' :: ([] ++ ('\n' :: ("---".data ++ v)))) = none
          rw [List.nil_append]
          rw [show ("\n---".data : List Char) = '\n' :: "---".data from rfl]
          rw [matchesPat, if_pos (by simp [chEq])]
          rw [show ("---".data : List Char) = '-' :: "--".data from rfl]
          rw [matchesPat, if_neg (by simp [chEq])]
        | cons b u' =>
          have hb : ¬ b = '-' := by
            rw [show nlSafe ('\n' :: b :: u') =
                (!('\n' == '\n' && b == '-') && nlSafe (b :: u')) from rfl] at h
            simp only [Bool.and_eq_true] at h
            intro he
            rw [he] at h
            simp at h
          show matchesPat false "\n---".data
            ('\n' :: (b :: u' ++ ('\n' :: ("---".data ++ v)))) = none
          rw [show ("\n---".data : List Char) = '\n' :: "---".data from rfl]
          rw [matchesPat, if_pos (by simp [chEq])]
          rw [List.cons_append]
          rw [show ("---".data : List Char) = '-' :: "--".data from rfl]
          rw [matchesPat, if_neg (by simp [chEq]; exact fun he => hb he.symm)]
      · show matchesPat false "\n---".data (c :: (u ++ ("\n---".data ++ v))) = none
        rw [show ("\n---".data : List Char) = '\n' :: "---".data from rfl]
        rw [matchesPat, if_neg (by simp [chEq]; exact fun he => hc he.symm)]
    rw [List.cons_append]
    rw [show findSub "\n---".data (c :: (u ++ ("\n---".data ++ v))) =
        (match eatLit "\n---".data (c :: (u ++ ("\n---".data ++ v))) with
         | some rest => some (([] : List Char), rest)
         | none =>
           (findSub "\n---".data (u ++ ("\n---".data ++ v))).map
             (fun pr => (c :: pr.1, pr.2))) from rfl]
    rw [hnone, ih htail]
    rfl

theorem splitNl_append (u w : List Char) (hu : '\n' ∉ u) :
    splitOnChar '\n' (u ++ '\n' :: w) = u :: splitOnChar '\n' w := by
  induction u with
  | nil => simp [splitOnChar]
  | cons c u ih =>
    have hc : ¬ c = '\n' := fun he => hu (by simp [he])
    have h' := ih (fun hm => hu (List.mem_cons_of_mem _ hm))
    rw [List.cons_append]
    rw [show splitOnChar '\n' (c :: (u ++ '\n' :: w)) =
        (match splitOnChar '\n' (u ++ '\n' :: w) with
         | [] => [[c]]
         | h :: tl => (c :: h) :: tl) from by
      simp only [splitOnChar, hc, if_false]]
    rw [h']

theorem takeWhile_all_cons (p : Char → Bool) (w : List Char) (c0 : Char)
    (rest : List Char) (hw : ∀ c ∈ w, p c = true) (hc : p c0 = false) :
    (w ++ c0 :: rest).takeWhile p = w := by
  induction w with
  | nil =>
    rw [List.nil_append]
    rw [List.takeWhile_cons_of_neg (by simp [hc])]
  | cons a w ih =>
    have ha : p a = true := hw a (List.mem_cons_self _ _)
    rw [List.cons_append, List.takeWhile_cons_of_pos ha,
      ih (fun c hc' => hw c (List.mem_cons_of_mem _ hc'))]

theorem word_not_ws (c : Char) (h : isWordChar c = true) : isWSChar c = false := by
  cases hw : isWSChar c
  · rfl
  · exfalso
    unfold isWSChar at hw
    simp only [Bool.or_eq_true, beq_iff_eq] at hw
    rcases hw with ((((h1 | h1) | h1) | h1) | h1) | h1 <;>
      (subst h1; exact absurd h (by decide))

theorem word_not_nl (c : Char) (h : isWordChar c = true) : c ≠ '\n' := by
  intro he; subst he; exact absurd h (by decide)

theorem jsKeyMatch_key (w rest : List Char) (hne : w ≠ [])
    (hw : ∀ c ∈ w, isWordChar c = true) :
    jsKeyMatch (w ++ ':' :: rest) =
      some (w, rest.dropWhile (fun c => isWSChar c)) := by
  unfold jsKeyMatch
  rw [takeWhile_all_cons _ w ':' rest hw (by decide)]
  rw [if_neg (fun hz => hne (List.length_eq_zero.mp hz))]
  rw [List.drop_left]
  rfl

theorem jsKeyMatch_space (line : List Char) : jsKeyMatch (' ' :: line) = none := by
  unfold jsKeyMatch
  rw [List.takeWhile_cons_of_neg (by decide)]
  rfl

theorem isNestedKeyLine_contLine (sk sv : List Char) (hsk : sk ≠ [])
    (hw : ∀ c ∈ sk, isWordChar c = true) :
    isNestedKeyLine (' ' :: ' ' :: (sk ++ ':' :: ' ' :: sv)) = true := by
  unfold isNestedKeyLine
  cases sk with
  | nil => exact absurd rfl hsk
  | cons a sk' =>
    have ha := hw a (List.mem_cons_self _ _)
    have hns : isWSChar a = false := word_not_ws a ha
    rw [show (' ' :: ' ' :: (a :: sk' ++ ':' :: ' ' :: sv)).takeWhile (fun c => isWSChar c) =
        [' ', ' '] from by
      rw [List.takeWhile_cons_of_pos (by decide), List.takeWhile_cons_of_pos (by decide)]
      rw [List.cons_append]
      rw [List.takeWhile_cons_of_neg (by simp [hns])]]
    rw [if_neg (by decide)]
    rw [show (' ' :: ' ' :: (a :: sk' ++ ':' :: ' ' :: sv)).drop ([' ', ' '] : List Char).length =
        a :: sk' ++ ':' :: ' ' :: sv from rfl]
    rw [takeWhile_all_cons _ (a :: sk') ':' (' ' :: sv) hw (by decide)]
    rw [if_neg (by simp)]
    rw [List.drop_left]
    rfl

theorem dropWhile_idem (p : Char → Bool) (l : List Char) :
    (l.dropWhile p).dropWhile p = l.dropWhile p := by
  induction l with
  | nil => rfl
  | cons a l ih =>
    by_cases ha : p a = true
    · rw [List.dropWhile_cons_of_pos ha]; exact ih
    · rw [List.dropWhile_cons_of_neg (by simp [ha])]
      rw [List.dropWhile_cons_of_neg (by simp [ha])]

theorem trimWS_dropWhile (l : List Char) :
    trimWS (l.dropWhile (fun c => isWSChar c)) = trimWS l := by
  unfold trimWS
  rw [dropWhile_idem]

theorem dropWhile_ne_nil_of_trim (l : List Char) (h : trimWS l ≠ []) :
    l.dropWhile (fun c => isWSChar c) ≠ [] := by
  intro he
  apply h
  unfold trimWS
  rw [he]
  rfl

theorem fmLoop_cons_key (line : List Char) (rest : List (List Char)) (st : FMSt)
    (k value : List Char) (hk : jsKeyMatch line = some (k, value)) :
    fmLoop (line :: rest) st = fmLoop rest (fmKeyStep st k value rest.head?) := by
  rw [fmLoop, hk]

theorem fmLoop_cons_none (line : List Char) (rest : List (List Char)) (st : FMSt)
    (hk : jsKeyMatch line = none) :
    fmLoop (line :: rest) st = fmLoop rest (fmContStep st line) := by
  rw [fmLoop, hk]

/-- A plain scalar key line starts a fresh single-line value. -/
theorem fmKeyStep_plain (st : FMSt) (k value : List Char)
    (next : Option (List Char))
    (hv1 : value ≠ ">-".data) (hv2 : value ≠ "|".data) (hv3 : value ≠ ">".data)
    (hv0 : value ≠ []) :
    fmKeyStep st k value next =
      { fm := saveCurrent st, currentKey := some k,
        currentValue := [value], multilineMode := none, inNestedBlock := false } := by
  unfold fmKeyStep
  rw [if_neg (by simp [hv1, hv2, hv3]), if_neg hv0]

/-- An empty value followed by an indented key enters a dropped
nested block. -/
theorem fmKeyStep_nested (st : FMSt) (k nl : List Char)
    (hn : isNestedKeyLine nl = true) :
    fmKeyStep st k [] (some nl) =
      { fm := saveCurrent st, currentKey := some k, currentValue := [],
        multilineMode := st.multilineMode, inNestedBlock := true } := by
  unfold fmKeyStep
  rw [if_neg (by decide), if_pos rfl]
  simp [hn]

/-- A non-key line inside a dropped nested block is ignored. -/
theorem fmContStep_skip (st : FMSt) (line : List Char)
    (hnb : st.inNestedBlock = true) : fmContStep st line = st := by
  unfold fmContStep
  rw [if_neg (by simp [hnb])]

set_option maxHeartbeats 1600000 in
/-- The parsing loop on a schematic preamble `title`, `description`,
then a nested block: the nested block's key is never saved. -/
theorem fmLoop_schema (t d nk sk sv : List Char)
    (ht0 : trimWS t ≠ [])
    (ht1 : t.dropWhile (fun c => isWSChar c) ≠ ">-".data)
    (ht2 : t.dropWhile (fun c => isWSChar c) ≠ "|".data)
    (ht3 : t.dropWhile (fun c => isWSChar c) ≠ ">".data)
    (hd0 : trimWS d ≠ [])
    (hd1 : d.dropWhile (fun c => isWSChar c) ≠ ">-".data)
    (hd2 : d.dropWhile (fun c => isWSChar c) ≠ "|".data)
    (hd3 : d.dropWhile (fun c => isWSChar c) ≠ ">".data)
    (hnk0 : nk ≠ []) (hnk1 : ∀ c ∈ nk, isWordChar c = true)
    (hsk0 : sk ≠ []) (hsk1 : ∀ c ∈ sk, isWordChar c = true) :
    saveCurrent (fmLoop
      ["title".data ++ ':' :: ' ' :: t,
       "description".data ++ ':' :: ' ' :: d,
       nk ++ [':'],
       ' ' :: ' ' :: (sk ++ ':' :: ' ' :: sv)] initFMSt) =
    [("title".data, trimWS t), ("description".data, trimWS d)] := by
  have hVTne : t.dropWhile (fun c => isWSChar c) ≠ [] := dropWhile_ne_nil_of_trim t ht0
  have hVDne : d.dropWhile (fun c => isWSChar c) ≠ [] := dropWhile_ne_nil_of_trim d hd0
  have hk1 : jsKeyMatch ("title".data ++ ':' :: ' ' :: t) =
      some ("title".data, t.dropWhile (fun c => isWSChar c)) := by
    rw [jsKeyMatch_key "title".data (' ' :: t) (by decide) (by decide)]
    rw [List.dropWhile_cons_of_pos (by decide)]
  have hk2 : jsKeyMatch ("description".data ++ ':' :: ' ' :: d) =
      some ("description".data, d.dropWhile (fun c => isWSChar c)) := by
    rw [jsKeyMatch_key "description".data (' ' :: d) (by decide) (by decide)]
    rw [List.dropWhile_cons_of_pos (by decide)]
  have hk3 : jsKeyMatch (nk ++ [':']) = some (nk, []) := by
    rw [show (nk ++ [':'] : List Char) = nk ++ ':' :: [] from rfl]
    rw [jsKeyMatch_key nk [] hnk0 hnk1]
    rfl
  have hk4 : jsKeyMatch (' ' :: ' ' :: (sk ++ ':' :: ' ' :: sv)) = none :=
    jsKeyMatch_space _
  have hn4 : isNestedKeyLine (' ' :: ' ' :: (sk ++ ':' :: ' ' :: sv)) = true :=
    isNestedKeyLine_contLine sk sv hsk0 hsk1
  rw [fmLoop_cons_key _ _ _ _ _ hk1]
  rw [fmKeyStep_plain _ _ _ _ ht1 ht2 ht3 hVTne]
  rw [show saveCurrent initFMSt = [] from rfl]
  rw [fmLoop_cons_key _ _ _ _ _ hk2]
  rw [fmKeyStep_plain _ _ _ _ hd1 hd2 hd3 hVDne]
  rw [show saveCurrent
      { fm := [], currentKey := some "title".data,
        currentValue := [t.dropWhile (fun c => isWSChar c)],
        multilineMode := none, inNestedBlock := false } =
      [("title".data, trimWS t)] from by
    simp [saveCurrent, setKey, joinSepL, trimWS_dropWhile]]
  rw [fmLoop_cons_key _ _ _ _ _ hk3]
  rw [show ([' ' :: ' ' :: (sk ++ ':' :: ' ' :: sv)] : List (List Char)).head? =
      some (' ' :: ' ' :: (sk ++ ':' :: ' ' :: sv)) from rfl]
  rw [fmKeyStep_nested _ _ _ hn4]
  rw [show saveCurrent
      { fm := [("title".data, trimWS t)], currentKey := some "description".data,
        currentValue := [d.dropWhile (fun c => isWSChar c)],
        multilineMode := none, inNestedBlock := false } =
      [("title".data, trimWS t), ("description".data, trimWS d)] from by
    simp [saveCurrent, setKey, joinSepL, trimWS_dropWhile]]
  rw [fmLoop_cons_none _ _ _ hk4]
  rw [fmContStep_skip _ _ rfl]
  rw [show fmLoop []
      { fm := [("title".data, trimWS t), ("description".data, trimWS d)],
        currentKey := some nk, currentValue := [],
        multilineMode :=
          ({ fm := [("title".data, trimWS t)], currentKey := some "description".data,
             currentValue := [d.dropWhile (fun c => isWSChar c)],
             multilineMode := none, inNestedBlock := false } : FMSt).multilineMode,
        inNestedBlock := true } =
      { fm := [("title".data, trimWS t), ("description".data, trimWS d)],
        currentKey := some nk, currentValue := [],
        multilineMode := none, inNestedBlock := true } from rfl]
  simp [saveCurrent]

theorem noNl_of_word (w : List Char) (hw : ∀ c ∈ w, isWordChar c = true) :
    '\n' ∉ w :=
  fun hm => word_not_nl '\n' (hw _ hm) rfl

theorem getKey_cons_eq (k v : List Char) (m : List (List Char × List Char)) :
    getKey ((k, v) :: m) k = some v := by
  show (if k = k then some v else getKey m k) = some v
  rw [if_pos rfl]

theorem getKey_cons_ne (k1 v k : List Char) (m : List (List Char × List Char))
    (h : k1 ≠ k) : getKey ((k1, v) :: m) k = getKey m k := by
  show (if k1 = k then some v else getKey m k) = getKey m k
  rw [if_neg h]

theorem isEmpty_eq_false_of_ne (l : List Char) (h : l ≠ []) : l.isEmpty = false := by
  cases l with
  | nil => exact absurd rfl h
  | cons a t => rfl

/-- `buildNewFm` on a parsed map holding exactly a nonempty title and
a nonempty description emits exactly the two corresponding lines. -/
theorem buildNewFm_title_desc (tv dv body filePath : List Char)
    (ht : tv ≠ []) (hd : dv ≠ []) :
    buildNewFm [("title".data, tv), ("description".data, dv)] body filePath =
      ["title: \"".data ++ stripEdgeQuotes tv ++ "\"".data,
       "description: \x27".data ++ escSingleQuotes dv ++ "\x27".data] := by
  have hgt : getKey [("title".data, tv), ("description".data, dv)] "title".data =
      some tv := getKey_cons_eq _ _ _
  have hgd : getKey [("title".data, tv), ("description".data, dv)] "description".data =
      some dv := by
    rw [getKey_cons_ne _ _ _ _ (by decide), getKey_cons_eq]
  have hgh : getKey [("title".data, tv), ("description".data, dv)] "hidden".data =
      none := by
    rw [getKey_cons_ne _ _ _ _ (by decide), getKey_cons_ne _ _ _ _ (by decide)]
    rfl
  have hgi : getKey [("title".data, tv), ("description".data, dv)] "icon".data =
      none := by
    rw [getKey_cons_ne _ _ _ _ (by decide), getKey_cons_ne _ _ _ _ (by decide)]
    rfl
  unfold buildNewFm
  rw [hgt, hgd, hgh, hgi]
  simp [jsFalsy, isEmpty_eq_false_of_ne tv ht, isEmpty_eq_false_of_ne dv hd]

/-- `processFrontmatterL` when the fence match succeeds. -/
theorem processFrontmatterL_of_fmMatch (content filePath raw body : List Char)
    (h : fmMatch content = some (raw, body)) :
    processFrontmatterL content filePath =
      "---\n".data ++
        joinSep '\n'
          (buildNewFm (saveCurrent (fmLoop (splitOnChar '\n' raw) initFMSt))
            body filePath) ++
        "\n---\n".data ++ body := by
  unfold processFrontmatterL
  rw [h]

set_option maxHeartbeats 1600000 in
/-- C7.  On a document whose frontmatter preamble holds a `title`
key, a `description` key and an unrelated nested object block (a key
with empty value followed by an indented sub-key line), the
frontmatter transformer emits an output preamble holding exactly a
title line and a description line: the nested block and its keys are
absent from the output. -/
theorem processFrontmatter_drops_nested_block
    (t d nk sk sv body filePath : List Char)
    (htn : '\n' ∉ t) (hdn : '\n' ∉ d) (hsvn : '\n' ∉ sv)
    (ht0 : trimWS t ≠ [])
    (ht1 : t.dropWhile (fun c => isWSChar c) ≠ ">-".data)
    (ht2 : t.dropWhile (fun c => isWSChar c) ≠ "|".data)
    (ht3 : t.dropWhile (fun c => isWSChar c) ≠ ">".data)
    (hd0 : trimWS d ≠ [])
    (hd1 : d.dropWhile (fun c => isWSChar c) ≠ ">-".data)
    (hd2 : d.dropWhile (fun c => isWSChar c) ≠ "|".data)
    (hd3 : d.dropWhile (fun c => isWSChar c) ≠ ">".data)
    (hnk0 : nk ≠ []) (hnk1 : ∀ c ∈ nk, isWordChar c = true)
    (hsk0 : sk ≠ []) (hsk1 : ∀ c ∈ sk, isWordChar c = true) :
    processFrontmatterL
      ("---\n".data ++
        ((("title".data ++ ':' :: ' ' :: t) ++ '\n' ::
          (("description".data ++ ':' :: ' ' :: d) ++ '\n' ::
           ((nk ++ [':']) ++ '\n' ::
            (' ' :: ' ' :: (sk ++ ':' :: ' ' :: sv))))) ++
         ("\n---".data ++ body)))
      filePath =
    "---\n".data ++
      (("title: \"".data ++ stripEdgeQuotes (trimWS t) ++ "\"".data) ++
       '\n' :: (("description: \x27".data ++ escSingleQuotes (trimWS d) ++ "\x27".data) ++
        ("\n---\n".data ++ body))) := by
  have hnkn : '\n' ∉ nk := noNl_of_word nk hnk1
  have hskn : '\n' ∉ sk := noNl_of_word sk hsk1
  have hl1n : '\n' ∉ ("title".data ++ ':' :: ' ' :: t) := by
    intro hm
    rcases List.mem_append.mp hm with h | h
    · exact absurd h (by decide)
    · rcases List.mem_cons.mp h with h | h
      · exact absurd h (by decide)
      · rcases List.mem_cons.mp h with h | h
        · exact absurd h (by decide)
        · exact htn h
  have hl2n : '\n' ∉ ("description".data ++ ':' :: ' ' :: d) := by
    intro hm
    rcases List.mem_append.mp hm with h | h
    · exact absurd h (by decide)
    · rcases List.mem_cons.mp h with h | h
      · exact absurd h (by decide)
      · rcases List.mem_cons.mp h with h | h
        · exact absurd h (by decide)
        · exact hdn h
  have hl3n : '\n' ∉ (nk ++ [':']) := by
    intro hm
    rcases List.mem_append.mp hm with h | h
    · exact hnkn h
    · exact absurd h (by decide)
  have hl4n : '\n' ∉ (' ' :: ' ' :: (sk ++ ':' :: ' ' :: sv)) := by
    intro hm
    rcases List.mem_cons.mp hm with h | h
    · exact absurd h (by decide)
    · rcases List.mem_cons.mp h with h | h
      · exact absurd h (by decide)
      · rcases List.mem_append.mp h with h | h
        · exact hskn h
        · rcases List.mem_cons.mp h with h | h
          · exact absurd h (by decide)
          · rcases List.mem_cons.mp h with h | h
            · exact absurd h (by decide)
            · exact hsvn h
  have hs4 : nlSafe ('\n' :: (' ' :: ' ' :: (sk ++ ':' :: ' ' :: sv))) = true := by
    refine nlSafe_nl_cons _ (nlSafe_of_noNl _ hl4n) ?_
    intro b hb
    rw [show ((' ' :: ' ' :: (sk ++ ':' :: ' ' :: sv)) : List Char).head? = some ' '
        from rfl] at hb
    injection hb with hb
    subst hb
    decide
  have hw2 : nlSafe ((nk ++ [':']) ++
      '\n' :: (' ' :: ' ' :: (sk ++ ':' :: ' ' :: sv))) = true :=
    nlSafe_append _ _ hl3n hs4
  have hs3 : nlSafe ('\n' :: ((nk ++ [':']) ++
      '\n' :: (' ' :: ' ' :: (sk ++ ':' :: ' ' :: sv)))) = true := by
    refine nlSafe_nl_cons _ hw2 ?_
    cases nk with
    | nil => exact absurd rfl hnk0
    | cons a nk1 =>
      intro b hb
      have ha := hnk1 a (List.mem_cons_self _ _)
      rw [show (((a :: nk1 ++ [':']) ++
          '\n' :: (' ' :: ' ' :: (sk ++ ':' :: ' ' :: sv))) : List Char).head? = some a
          from rfl] at hb
      injection hb with hb
      subst hb
      intro he
      subst he
      exact absurd ha (by decide)
  have hw1 : nlSafe (("description".data ++ ':' :: ' ' :: d) ++
      '\n' :: ((nk ++ [':']) ++
       '\n' :: (' ' :: ' ' :: (sk ++ ':' :: ' ' :: sv)))) = true :=
    nlSafe_append _ _ hl2n hs3
  have hs2 : nlSafe ('\n' :: (("description".data ++ ':' :: ' ' :: d) ++
      '\n' :: ((nk ++ [':']) ++
       '\n' :: (' ' :: ' ' :: (sk ++ ':' :: ' ' :: sv))))) = true := by
    refine nlSafe_nl_cons _ hw1 ?_
    intro b hb
    rw [show ((("description".data ++ ':' :: ' ' :: d) ++
        '\n' :: ((nk ++ [':']) ++
         '\n' :: (' ' :: ' ' :: (sk ++ ':' :: ' ' :: sv)))) : List Char).head? = some 'd'
        from by
      rw [show ("description".data : List Char) = 'd' :: "escription".data from by decide]
      rfl] at hb
    injection hb with hb
    subst hb
    decide
  have hu : nlSafe (("title".data ++ ':' :: ' ' :: t) ++
      '\n' :: (("description".data ++ ':' :: ' ' :: d) ++
       '\n' :: ((nk ++ [':']) ++
        '\n' :: (' ' :: ' ' :: (sk ++ ':' :: ' ' :: sv))))) = true :=
    nlSafe_append _ _ hl1n hs2
  have hfm : fmMatch
      ("---\n".data ++
        ((("title".data ++ ':' :: ' ' :: t) ++ '\n' ::
          (("description".data ++ ':' :: ' ' :: d) ++ '\n' ::
           ((nk ++ [':']) ++ '\n' ::
            (' ' :: ' ' :: (sk ++ ':' :: ' ' :: sv))))) ++
         ("\n---".data ++ body))) =
      some ((("title".data ++ ':' :: ' ' :: t) ++ '\n' ::
          (("description".data ++ ':' :: ' ' :: d) ++ '\n' ::
           ((nk ++ [':']) ++ '\n' ::
            (' ' :: ' ' :: (sk ++ ':' :: ' ' :: sv))))), body) := by
    rw [show fmMatch
        ("---\n".data ++
          ((("title".data ++ ':' :: ' ' :: t) ++ '\n' ::
            (("description".data ++ ':' :: ' ' :: d) ++ '\n' ::
             ((nk ++ [':']) ++ '\n' ::
              (' ' :: ' ' :: (sk ++ ':' :: ' ' :: sv))))) ++
           ("\n---".data ++ body))) =
        findSub "\n---".data
          ((("title".data ++ ':' :: ' ' :: t) ++ '\n' ::
            (("description".data ++ ':' :: ' ' :: d) ++ '\n' ::
             ((nk ++ [':']) ++ '\n' ::
              (' ' :: ' ' :: (sk ++ ':' :: ' ' :: sv))))) ++
           ("\n---".data ++ body)) from by
      unfold fmMatch
      rw [eatLit_self]]
    exact findSub_boundary _ _ hu
  rw [processFrontmatterL_of_fmMatch _ _ _ _ hfm]
  rw [splitNl_append _ _ hl1n, splitNl_append _ _ hl2n, splitNl_append _ _ hl3n,
    splitOnChar_of_no_sep '\n' _ hl4n]
  rw [fmLoop_schema t d nk sk sv ht0 ht1 ht2 ht3 hd0 hd1 hd2 hd3 hnk0 hnk1 hsk0 hsk1]
  rw [buildNewFm_title_desc (trimWS t) (trimWS d) body filePath ht0 hd0]
  rw [show joinSep '\n'
      ["title: \"".data ++ stripEdgeQuotes (trimWS t) ++ "\"".data,
       "description: \x27".data ++ escSingleQuotes (trimWS d) ++ "\x27".data] =
      ("title: \"".data ++ stripEdgeQuotes (trimWS t) ++ "\"".data) ++
        '\n' :: ("description: \x27".data ++ escSingleQuotes (trimWS d) ++ "\x27".data)
      from rfl]
  simp [List.append_assoc]

set_option maxRecDepth 10000 in
set_option maxHeartbeats 1600000 in
/-- Witness for C7 at a concrete document: the `cover:` nested block
(with its `image:` sub-key) is dropped; title and description remain. -/
theorem processFrontmatter_drops_nested_block_witness :
    processFrontmatterL
      "---\ntitle: My Page\ndescription: Desc\ncover:\n  image: x.png\n---\nBody".data
      "a/b.md".data =
    "---\ntitle: \"My Page\"\ndescription: \x27Desc\x27\n---\n\nBody".data := by
  have h := processFrontmatter_drops_nested_block
    "My Page".data "Desc".data "cover".data "image".data "x.png".data
    "\nBody".data "a/b.md".data
    (by decide) (by decide) (by decide) (by decide) (by decide) (by decide)
    (by decide) (by decide) (by decide) (by decide) (by decide) (by decide)
    (by decide) (by decide) (by decide)
  rw [show ("---\ntitle: My Page\ndescription: Desc\ncover:\n  image: x.png\n---\nBody".data
      : List Char) =
      "---\n".data ++
        ((("title".data ++ ':' :: ' ' :: "My Page".data) ++ '\n' ::
          (("description".data ++ ':' :: ' ' :: "Desc".data) ++ '\n' ::
           (("cover".data ++ [':']) ++ '\n' ::
            (' ' :: ' ' :: ("image".data ++ ':' :: ' ' :: "x.png".data))))) ++
         ("\n---".data ++ "\nBody".data)) from by decide]
  rw [h]
  decide

/-- `stripEdgeQuotes` evaluated after resolving the leading-quote
test. -/
theorem stripEdgeQuotes_eval (c : Char) (rest v1 : List Char)
    (hv1 : (if c = '"' ∨ c = '\x27' then rest else c :: rest) = v1) :
    stripEdgeQuotes (c :: rest) =
      match v1.getLast? with
      | some b => if b = '"' ∨ b = '\x27' then v1.dropLast else v1
      | none => v1 := by
  subst hv1
  rfl

theorem stripEdgeQuotes_decomp (v : List Char) :
    ∃ lq rq : List Char,
      (lq = [] ∨ lq = ['"'] ∨ lq = ['\x27']) ∧
      (rq = [] ∨ rq = ['"'] ∨ rq = ['\x27']) ∧
      v = lq ++ stripEdgeQuotes v ++ rq := by
  cases v with
  | nil => exact ⟨[], [], Or.inl rfl, Or.inl rfl, rfl⟩
  | cons c rest =>
    by_cases hc : c = '"' ∨ c = '\x27'
    · have hlq : ([c] : List Char) = [] ∨ ([c] : List Char) = ['"'] ∨
          ([c] : List Char) = ['\x27'] := by
        rcases hc with h | h
        · subst h; exact Or.inr (Or.inl rfl)
        · subst h; exact Or.inr (Or.inr rfl)
      induction rest using List.reverseRecOn with
      | nil =>
        have hs : stripEdgeQuotes (c :: ([] : List Char)) = [] := by
          rw [stripEdgeQuotes_eval c [] [] (if_pos hc)]
          rfl
        exact ⟨[c], [], hlq, Or.inl rfl, by simp [hs]⟩
      | append_singleton ys b _ih =>
        by_cases hb : b = '"' ∨ b = '\x27'
        · have hs : stripEdgeQuotes (c :: (ys ++ [b])) = ys := by
            rw [stripEdgeQuotes_eval c (ys ++ [b]) (ys ++ [b]) (if_pos hc)]
            rw [List.getLast?_concat]
            rw [show (match some b with
                | some b2 => if b2 = '"' ∨ b2 = '\x27' then (ys ++ [b]).dropLast
                    else ys ++ [b]
                | none => ys ++ [b]) =
                (if b = '"' ∨ b = '\x27' then (ys ++ [b]).dropLast else ys ++ [b])
                from rfl]
            rw [if_pos hb, List.dropLast_concat]
          have hrq : ([b] : List Char) = [] ∨ ([b] : List Char) = ['"'] ∨
              ([b] : List Char) = ['\x27'] := by
            rcases hb with h | h
            · subst h; exact Or.inr (Or.inl rfl)
            · subst h; exact Or.inr (Or.inr rfl)
          exact ⟨[c], [b], hlq, hrq, by simp [hs]⟩
        · have hs : stripEdgeQuotes (c :: (ys ++ [b])) = ys ++ [b] := by
            rw [stripEdgeQuotes_eval c (ys ++ [b]) (ys ++ [b]) (if_pos hc)]
            rw [List.getLast?_concat]
            rw [show (match some b with
                | some b2 => if b2 = '"' ∨ b2 = '\x27' then (ys ++ [b]).dropLast
                    else ys ++ [b]
                | none => ys ++ [b]) =
                (if b = '"' ∨ b = '\x27' then (ys ++ [b]).dropLast else ys ++ [b])
                from rfl]
            rw [if_neg hb]
          exact ⟨[c], [], hlq, Or.inl rfl, by simp [hs]⟩
    · induction rest using List.reverseRecOn with
      | nil =>
        have hs : stripEdgeQuotes [c] = [c] := by
          rw [stripEdgeQuotes_eval c [] [c] (if_neg hc)]
          rw [show (match ([c] : List Char).getLast? with
              | some b2 => if b2 = '"' ∨ b2 = '\x27' then ([c] : List Char).dropLast
                  else ([c] : List Char)
              | none => ([c] : List Char)) =
              (if c = '"' ∨ c = '\x27' then ([c] : List Char).dropLast
                else ([c] : List Char)) from rfl]
          rw [if_neg hc]
        exact ⟨[], [], Or.inl rfl, Or.inl rfl, by simp [hs]⟩
      | append_singleton ys b _ih =>
        by_cases hb : b = '"' ∨ b = '\x27'
        · have hs : stripEdgeQuotes (c :: (ys ++ [b])) = c :: ys := by
            rw [stripEdgeQuotes_eval c (ys ++ [b]) (c :: (ys ++ [b])) (if_neg hc)]
            rw [show (c :: (ys ++ [b]) : List Char) = (c :: ys) ++ [b] from by simp]
            rw [List.getLast?_concat]
            rw [show (match some b with
                | some b2 => if b2 = '"' ∨ b2 = '\x27' then ((c :: ys) ++ [b]).dropLast
                    else (c :: ys) ++ [b]
                | none => (c :: ys) ++ [b]) =
                (if b = '"' ∨ b = '\x27' then ((c :: ys) ++ [b]).dropLast
                  else (c :: ys) ++ [b]) from rfl]
            rw [if_pos hb, List.dropLast_concat]
          have hrq : ([b] : List Char) = [] ∨ ([b] : List Char) = ['"'] ∨
              ([b] : List Char) = ['\x27'] := by
            rcases hb with h | h
            · subst h; exact Or.inr (Or.inl rfl)
            · subst h; exact Or.inr (Or.inr rfl)
          exact ⟨[], [b], Or.inl rfl, hrq, by simp [hs]⟩
        · have hs : stripEdgeQuotes (c :: (ys ++ [b])) = c :: (ys ++ [b]) := by
            rw [stripEdgeQuotes_eval c (ys ++ [b]) (c :: (ys ++ [b])) (if_neg hc)]
            rw [show (c :: (ys ++ [b]) : List Char) = (c :: ys) ++ [b] from by simp]
            rw [List.getLast?_concat]
            rw [show (match some b with
                | some b2 => if b2 = '"' ∨ b2 = '\x27' then ((c :: ys) ++ [b]).dropLast
                    else (c :: ys) ++ [b]
                | none => (c :: ys) ++ [b]) =
                (if b = '"' ∨ b = '\x27' then ((c :: ys) ++ [b]).dropLast
                  else (c :: ys) ++ [b]) from rfl]
            rw [if_neg hb]
          exact ⟨[], [], Or.inl rfl, Or.inl rfl, by simp [hs]⟩

set_option maxRecDepth 10000 in
set_option maxHeartbeats 1600000 in
/-- C10.  The title value has at most one leading and one trailing
quote character stripped (each either a double or a single quote),
and the transformer then wraps the result in double quotes without
escaping interior double quotes: concretely, a title holding interior
double quotes is emitted verbatim inside the double-quoted title
line. -/
theorem title_edge_quotes_interior_unescaped :
    (∀ v : List Char, ∃ lq rq : List Char,
      (lq = [] ∨ lq = ['"'] ∨ lq = ['\x27']) ∧
      (rq = [] ∨ rq = ['"'] ∨ rq = ['\x27']) ∧
      v = lq ++ stripEdgeQuotes v ++ rq) ∧
    processFrontmatter "---\ntitle: say \"hi\" now\n---\nB" "a/b.md" =
      "---\ntitle: \"say \"hi\" now\"\n---\n\nB" ∧
    processFrontmatter "---\ntitle: \"say \"hi\"\"\n---\nB" "a/b.md" =
      "---\ntitle: \"say \"hi\"\"\n---\n\nB" :=
  ⟨stripEdgeQuotes_decomp, by decide, by decide⟩

/-- Witness for C4: `#` with no anchor; `#unrelated-anchor` passes
through; `#GREEN-DOT` matches the key `#green-dot`
case-insensitively and maps to `#project-tips`. -/
theorem resolveUrl_anchorOnly_witness :
    resolveUrl "x.md" "" none = "#" ∧
    resolveUrl "x.md" "" (some "#unrelated-anchor") = "#unrelated-anchor" ∧
    resolveUrl "x.md" "" (some "#GREEN-DOT") = "#project-tips" :=
  ⟨resolveUrl_anchorOnly.1 "x.md",
   resolveUrl_anchorOnly.2.1 "x.md" "#unrelated-anchor" (by decide) (by decide),
   resolveUrl_anchorOnly.2.2 "x.md" "#GREEN-DOT" "#project-tips"
     (by decide) (by decide) (by decide)⟩

end Conv
